import Mathlib

/-!
# Verification of the pi-lib settings widgets

Shallow embedding of the two interactive widgets of the repository:
`OrderedMultiSelect` (ordered multi-select component) and `SettingsList`
(settings list with cycling values, free-text editing, fuzzy search and
submenu delegation), translated from `components/ordered-multi-select.ts`
and `components/settings-list.ts`, plus the extension wiring of
`extension.ts` where relevant.

Input tokens are modelled as an inductive type: the Keybinding Resolver is
an external collaborator that maps raw byte sequences to a fixed action
vocabulary (`selectUp`, `selectDown`, `selectConfirm`, `selectCancel`,
arrow keys, space, shift+arrows); distinct semantic tokens are distinct
constructors, and free characters are `Token.text`.

Callbacks (`onChange`, `onCancel`, `done`) are modelled by an append-only
event list carried in each widget's state: invoking a callback appends an
event, preserving the synchronous invocation order of the source.
-/

/-- A semantic input token, as produced by the external keybinding
resolver. `enter` stands for `selectConfirm` / the `enter` key, `escape`
for `selectCancel` / the `escape` key. -/
inductive Token where
  | up
  | down
  | enter
  | escape
  | space
  | shiftUp
  | shiftDown
  | text (s : String)
deriving DecidableEq, Repr

/-- JavaScript array read `l[i]` with a (possibly negative) index:
out-of-range reads yield `undefined`, modelled as `none`. -/
def jsGet {α : Type} (l : List α) (i : Int) : Option α :=
  if i < 0 then none else l[i.toNat]?

/-- JavaScript `Array.prototype.indexOf`: first index of `x`, `-1` when
absent. -/
def jsIndexOf (l : List String) (x : String) : Int :=
  if x ∈ l then (l.indexOf x : Int) else -1

/-- The destructuring swap
`[arr[i], arr[j]] = [arr[j], arr[i]]` used by `moveUp`/`moveDown`;
a no-op if either index is out of range (never the case at call sites). -/
def listSwap (l : List String) (i j : Nat) : List String :=
  match l[i]?, l[j]? with
  | some a, some b => (l.set i b).set j a
  | _, _ => l

/-- `OrderedListOption` from `settings/types.ts`. -/
structure OrderedListOption where
  id : String
  label : String
deriving DecidableEq, Repr

/-- An invocation of the ordered multi-select's `done` callback:
`done(selected.join(","))` on confirm, `done(undefined)` on cancel. -/
inductive OMSEvent where
  | done (v : Option String)
deriving DecidableEq, Repr

/-- The mutable state of an `OrderedMultiSelect` instance, plus the trace
of `done` callback invocations. `cursorIndex` is an `Int` because the
TypeScript field is a `number` and the code can drive it below zero. -/
structure OMSState where
  options : List OrderedListOption
  selected : List String
  cursorIndex : Int
  events : List OMSEvent
deriving DecidableEq, Repr

/-- JavaScript `String.prototype.trim`: strip leading and trailing
whitespace (character-level model of the JS builtin). -/
def jsTrim (s : String) : String :=
  ⟨((s.toList.dropWhile Char.isWhitespace).reverse.dropWhile Char.isWhitespace).reverse⟩

/-- Helper for `jsSplitComma`: accumulate the current (reversed) token. -/
def splitCommaAux : List Char → List Char → List String
  | [], acc => [⟨acc.reverse⟩]
  | c :: cs, acc =>
    if c = ',' then (⟨acc.reverse⟩ : String) :: splitCommaAux cs []
    else splitCommaAux cs (c :: acc)

/-- JavaScript `String.prototype.split(",")` (character-level model of the
JS builtin; `"".split(",")` is `[""]`). -/
def jsSplitComma (s : String) : List String :=
  splitCommaAux s.toList []

/-- The constructor's seeding of `selected`:
`currentValue.split(",").map(s => s.trim()).filter(Boolean)`. -/
def parseSelected (currentValue : String) : List String :=
  ((jsSplitComma currentValue).map jsTrim).filter (fun s => s != "")

/-- `new OrderedMultiSelect(options, currentValue, theme, done)`. -/
def OMSState.init (options : List OrderedListOption) (currentValue : String) : OMSState :=
  { options := options
    selected := parseSelected currentValue
    cursorIndex := 0
    events := [] }

/-- `DisplayItem` of `ordered-multi-select.ts`. -/
structure DisplayItem where
  option : OrderedListOption
  selected : Bool
  position : Nat
deriving DecidableEq, Repr

/-- The first loop of `buildDisplayItems`: selected ids in order, each
resolved against `options`; unknown ids are skipped but still advance the
position counter `i`. -/
def buildSelectedItems (options : List OrderedListOption) :
    List String → Nat → List DisplayItem
  | [], _ => []
  | id :: rest, i =>
    match options.find? (fun o => o.id == id) with
    | some o => ⟨o, true, i + 1⟩ :: buildSelectedItems options rest (i + 1)
    | none => buildSelectedItems options rest (i + 1)

/-- `OrderedMultiSelect.buildDisplayItems`: selected items first, in
`selected` order, then unselected options in declaration order. -/
def OMSState.buildDisplayItems (s : OMSState) : List DisplayItem :=
  buildSelectedItems s.options s.selected 0
    ++ (s.options.filter (fun o => !(s.selected.contains o.id))).map
        (fun o => ⟨o, false, 0⟩)

/-- `OrderedMultiSelect.toggleCurrent`. -/
def OMSState.toggleCurrent (s : OMSState) (items : List DisplayItem) : OMSState :=
  match jsGet items s.cursorIndex with
  | none => s
  | some item =>
    if item.selected then
      { s with selected := s.selected.filter (fun x => x != item.option.id) }
    else
      { s with selected := s.selected ++ [item.option.id] }

/-- `OrderedMultiSelect.moveUp`. -/
def OMSState.moveUp (s : OMSState) (items : List DisplayItem) : OMSState :=
  match jsGet items s.cursorIndex with
  | none => s
  | some item =>
    if item.selected then
      let idx := jsIndexOf s.selected item.option.id
      if idx ≤ 0 then s
      else
        { s with
          selected := listSwap s.selected (idx.toNat - 1) idx.toNat
          cursorIndex := s.cursorIndex - 1 }
    else s

/-- `OrderedMultiSelect.moveDown`. -/
def OMSState.moveDown (s : OMSState) (items : List DisplayItem) : OMSState :=
  match jsGet items s.cursorIndex with
  | none => s
  | some item =>
    if item.selected then
      let idx := jsIndexOf s.selected item.option.id
      if idx < 0 ∨ (s.selected.length : Int) - 1 ≤ idx then s
      else
        { s with
          selected := listSwap s.selected idx.toNat (idx.toNat + 1)
          cursorIndex := s.cursorIndex + 1 }
    else s

/-- `OrderedMultiSelect.handleInput`. -/
def OMSState.handleInput (s : OMSState) (t : Token) : OMSState :=
  let items := s.buildDisplayItems
  if items.length = 0 then
    if t = .escape then { s with events := s.events ++ [.done none] } else s
  else
    match t with
    | .up =>
      { s with
        cursorIndex :=
          if s.cursorIndex = 0 then (items.length : Int) - 1 else s.cursorIndex - 1 }
    | .down =>
      { s with
        cursorIndex :=
          if s.cursorIndex = (items.length : Int) - 1 then 0 else s.cursorIndex + 1 }
    | .space => s.toggleCurrent items
    | .shiftUp => s.moveUp items
    | .shiftDown => s.moveDown items
    | .enter =>
      { s with events := s.events ++ [.done (some (String.intercalate "," s.selected))] }
    | .escape => { s with events := s.events ++ [.done none] }
    | .text _ => s

/-- `OrderedMultiSelect.invalidate` (an empty body). -/
def OMSState.invalidate (s : OMSState) : OMSState := s

/-- Feed a sequence of input tokens to an `OrderedMultiSelect`. -/
def OMSState.run (s : OMSState) (ts : List Token) : OMSState :=
  ts.foldl OMSState.handleInput s

/-- Modelled from the spec: the Text-Input Editor leaf (`Input` from
`@mariozechner/pi-tui`), an external collaborator exposing
`getValue`/`setValue`/`handleInput`/`render`. Its state is a single-line
buffer; forwarded printable tokens append to the buffer, key tokens are
consumed by the editor without changing the buffer's value (the editor's
internal cursor is not load-bearing for any claim and is not modelled). -/
structure InputBuf where
  value : String
deriving DecidableEq, Repr

/-- Modelled from the spec: `Input.handleInput` of the Text-Input Editor
leaf. -/
def InputBuf.handleInput (b : InputBuf) (t : Token) : InputBuf :=
  match t with
  | .text s => ⟨b.value ++ s⟩
  | _ => b

/-- `SettingItem` from `settings-list.ts`. The `submenu` factory is a
function producing a child component; in this repository the submenu
component is the `OrderedMultiSelect` (CHANGELOG 0.5.0), so the factory is
modelled by the option list the child is constructed over
(`Modelled from the spec` for the factory payload, since `extension.ts`
in this snapshot never wires one). -/
structure SettingItem where
  id : String
  label : String
  description : Option String := none
  currentValue : String
  values : Option (List String) := none
  submenu : Option (List OrderedListOption) := none
deriving DecidableEq, Repr

/-- An invocation of a `SettingsList` callback: `onChange(id, newValue)`
or `onCancel()`. -/
inductive SLEvent where
  | change (id : String) (newValue : String)
  | cancel
deriving DecidableEq, Repr

/-- The mutually exclusive interaction sub-states of `SettingsList`:
`editingInput`/`editingItemIndex` set, `submenuComponent`/
`submenuItemIndex` set, or neither (Browsing). Both index fields index the
*displayed* sequence, exactly as in the source. -/
inductive SLMode where
  | browsing
  | editing (itemIndex : Nat) (buf : InputBuf)
  | submenu (itemIndex : Nat) (child : OMSState)
deriving DecidableEq, Repr

/-- The mutable state of a `SettingsList` instance, plus the trace of
callback invocations. JavaScript's `filteredItems` array holds aliases of
the objects in `items`; aliasing is modelled by storing the *indices* into
`items` of the items surviving the filter. -/
structure SLState where
  items : List SettingItem
  filtered : List Nat
  selectedIndex : Nat
  maxVisible : Nat
  searchEnabled : Bool
  searchInput : InputBuf
  mode : SLMode
  events : List SLEvent
deriving DecidableEq, Repr

/-- `new SettingsList(items, maxVisible, theme, onChange, onCancel,
options)`; `filteredItems` starts as (an alias of) `items`. -/
def SLState.init (items : List SettingItem) (maxVisible : Nat)
    (searchEnabled : Bool) : SLState :=
  { items := items
    filtered := List.range items.length
    selectedIndex := 0
    maxVisible := maxVisible
    searchEnabled := searchEnabled
    searchInput := ⟨""⟩
    mode := .browsing
    events := [] }

/-- The indices (into `items`) of the currently displayed sequence:
`this.searchEnabled ? this.filteredItems : this.items`. -/
def SLState.displayIdxs (s : SLState) : List Nat :=
  if s.searchEnabled then s.filtered else List.range s.items.length

/-- The displayed item at display index `i`, when it exists. -/
def SLState.displayGet (s : SLState) (i : Nat) : Option SettingItem :=
  (s.displayIdxs[i]?).bind (fun j => s.items[j]?)

/-- Modelled from the spec: the Fuzzy Filter leaf (`fuzzyFilter` from
`@mariozechner/pi-tui`): "given a query and a labeling function, returns
the subsequence of items whose label matches". Matching is modelled as
character-subsequence containment; ranking is not modelled. Needle-empty
matches everything. -/
def isCharSubseq : List Char → List Char → Bool
  | [], _ => true
  | _ :: _, [] => false
  | c :: cs, d :: ds => isCharSubseq (if c = d then cs else c :: cs) ds

/-- Modelled from the spec: `fuzzyFilter(this.items, query, item =>
item.label)`, returning the surviving items as indices into `items`. -/
def fuzzyFilterIdx (items : List SettingItem) (query : String) : List Nat :=
  (List.range items.length).filter (fun j =>
    match items[j]? with
    | some it => isCharSubseq query.toList it.label.toList
    | none => false)

/-- `SettingsList.applyFilter`. -/
def SLState.applyFilter (s : SLState) (query : String) : SLState :=
  { s with filtered := fuzzyFilterIdx s.items query, selectedIndex := 0 }

/-- The cycling computation of `SettingsList.activateItem`:
`nextIndex = (values.indexOf(currentValue) + 1) % values.length;
newValue = values[nextIndex]`. The out-of-range read is dead code when
`values` is non-empty (proved below); it is modelled as keeping the
current value. -/
def cycVal (vs : List String) (cur : String) : String :=
  match vs[((jsIndexOf vs cur + 1) % (vs.length : Int)).toNat]? with
  | some v => v
  | none => cur

/-- `SettingsList.activateItem` (called from `Browsing` on
`selectConfirm` or the literal space). -/
def SLState.activateItem (s : SLState) : SLState :=
  match s.displayIdxs[s.selectedIndex]? with
  | none => s
  | some j =>
    match s.items[j]? with
    | none => s
    | some item =>
      match item.submenu with
      | some opts =>
        { s with mode := .submenu s.selectedIndex (OMSState.init opts item.currentValue) }
      | none =>
        let vs := item.values.getD []
        if vs.length > 0 then
          let v := cycVal vs item.currentValue
          { s with
            items := s.items.set j { item with currentValue := v }
            events := s.events ++ [SLEvent.change item.id v] }
        else
          { s with mode := .editing s.selectedIndex ⟨item.currentValue⟩ }

/-- `SettingsList.confirmEdit`: resolve the edited display index against
the current displayed sequence, commit the editor's value, invoke
`onChange`, and leave the editing state. -/
def SLState.confirmEdit (s : SLState) (itemIndex : Nat) (buf : InputBuf) : SLState :=
  let s' :=
    match s.displayIdxs[itemIndex]? with
    | none => s
    | some j =>
      match s.items[j]? with
      | none => s
      | some item =>
        { s with
          items := s.items.set j { item with currentValue := buf.value }
          events := s.events ++ [SLEvent.change item.id buf.value] }
  { s' with mode := .browsing }

/-- `SettingsList.handleEditingInput`. -/
def SLState.handleEditingInput (s : SLState) (itemIndex : Nat) (buf : InputBuf)
    (t : Token) : SLState :=
  match t with
  | .enter => s.confirmEdit itemIndex buf
  | .escape => { s with mode := .browsing }
  | _ => { s with mode := .editing itemIndex (buf.handleInput t) }

/-- JavaScript `data.replace(/ /g, "")`: strip every space character. -/
def stripSpaces (str : String) : String :=
  ⟨str.toList.filter (fun c => c ≠ ' ')⟩

/-- The submenu branch of `SettingsList.handleInput`: forward the token to
the child; when the forwarded token makes the child invoke its `done`
callback, the closure installed by `activateItem` runs: with a defined
value it sets the originating item's `currentValue` and invokes
`onChange`, and `closeSubmenu` restores `selectedIndex` to the
originating index and returns to Browsing. -/
def SLState.handleSubmenuInput (s : SLState) (itemIndex : Nat) (child : OMSState)
    (t : Token) : SLState :=
  let child' := child.handleInput t
  match child'.events.drop child.events.length with
  | [] => { s with mode := .submenu itemIndex child' }
  | .done v :: _ =>
    let s' :=
      match v with
      | none => s
      | some val =>
        match s.displayIdxs[itemIndex]? with
        | none => s
        | some j =>
          match s.items[j]? with
          | none => s
          | some item =>
            { s with
              items := s.items.set j { item with currentValue := val }
              events := s.events ++ [SLEvent.change item.id val] }
    { s' with mode := .browsing, selectedIndex := itemIndex }

/-- `SettingsList.handleInput`. -/
def SLState.handleInput (s : SLState) (t : Token) : SLState :=
  match s.mode with
  | .editing itemIndex buf => s.handleEditingInput itemIndex buf t
  | .submenu itemIndex child => s.handleSubmenuInput itemIndex child t
  | .browsing =>
    let dis := s.displayIdxs
    match t with
    | .up =>
      if dis.length = 0 then s
      else
        { s with
          selectedIndex :=
            if s.selectedIndex = 0 then dis.length - 1 else s.selectedIndex - 1 }
    | .down =>
      if dis.length = 0 then s
      else
        { s with
          selectedIndex :=
            if s.selectedIndex = dis.length - 1 then 0 else s.selectedIndex + 1 }
    | .enter => s.activateItem
    | .space => s.activateItem
    | .escape => { s with events := s.events ++ [.cancel] }
    | .text str =>
      if s.searchEnabled then
        let sanitized := stripSpaces str
        if sanitized = "" then s
        else
          let si := s.searchInput.handleInput (.text sanitized)
          (SLState.applyFilter { s with searchInput := si } si.value)
      else s
    | _ => s

/-- `SettingsList.updateValue`: external correction of the first item with
a matching id, without invoking `onChange`; a no-op for an unknown id. -/
def SLState.updateValue (s : SLState) (id newValue : String) : SLState :=
  match s.items.findIdx? (fun it => it.id == id) with
  | some j =>
    match s.items[j]? with
    | some item => { s with items := s.items.set j { item with currentValue := newValue } }
    | none => s
  | none => s

/-- `SettingsList.invalidate`: forwards to an active submenu's
`invalidate` (which, for the `OrderedMultiSelect`, has an empty body);
no widget state changes. -/
def SLState.invalidate (s : SLState) : SLState := s

/-- Feed a sequence of input tokens to a `SettingsList`. -/
def SLState.run (s : SLState) (ts : List Token) : SLState :=
  ts.foldl SLState.handleInput s

/-- `SettingsListTheme` from `settings-list.ts`: styling callbacks
supplied by the caller. -/
structure SettingsListTheme where
  label : String → Bool → String
  value : String → Bool → String
  description : String → String
  cursor : String
  hint : String → String

/-- Modelled from the spec: `visibleWidth` of the trusted Text Layout
leaf (styling escape sequences are not modelled, so the visible width is
the character count). -/
def visibleWidth (s : String) : Nat := s.length

/-- Modelled from the spec: `truncateToWidth` of the trusted Text Layout
leaf. -/
def truncateToWidth (s : String) (width : Nat) (ellipsis : String) : String :=
  if visibleWidth s ≤ width then s
  else ⟨(s.toList.take (width - visibleWidth ellipsis))⟩ ++ ellipsis

/-- Modelled from the spec: `wrapTextWithAnsi` of the trusted Text Layout
leaf; the wrapping granularity is not load-bearing for any claim and is
modelled as a single line. -/
def wrapText (s : String) (_width : Nat) : List String := [s]

/-- JavaScript `" ".repeat(n)` (the call sites clamp `n` at zero). -/
def spaces (n : Nat) : String := ⟨List.replicate n ' '⟩

/-- JavaScript `String(x).padStart(2)` as used for the position marker. -/
def padStart2 (s : String) : String :=
  if s.length < 2 then spaces (2 - s.length) ++ s else s

/-- Modelled from the spec: `Input.render` of the Text-Input Editor
leaf — a single line holding the buffer. -/
def InputBuf.render (b : InputBuf) (width : Nat) : List String :=
  [truncateToWidth b.value width ""]

/-- `OrderedMultiSelect.render`. -/
def OMSState.render (s : OMSState) (theme : SettingsListTheme) (width : Nat) :
    List String :=
  let items := s.buildDisplayItems
  let rows := (List.range items.length).filterMap (fun i =>
    match items[i]? with
    | none => none
    | some item =>
      let isCursor := (i : Int) = s.cursorIndex
      let pre := if isCursor then theme.cursor else "  "
      let marker :=
        if item.selected then
          theme.value ("✓ " ++ padStart2 (toString item.position)) isCursor
        else theme.label "     " isCursor
      let lbl := theme.label item.option.label isCursor
      some (truncateToWidth (pre ++ marker ++ "  " ++ lbl) width "…"))
  let scroll :=
    if 0 < items.length then
      [theme.hint ("  (" ++ toString (s.cursorIndex + 1) ++ "/" ++
        toString items.length ++ ")")]
    else []
  rows ++ scroll ++
    ["", theme.hint "  Space toggle · Shift+↑/↓ reorder · Enter confirm · Esc cancel"]

/-- `SettingsList.addHintLine`. -/
def SLState.hintLines (s : SLState) (theme : SettingsListTheme) : List String :=
  ["",
   theme.hint
     (match s.mode with
      | .editing _ _ => "  Enter to confirm · Esc to cancel"
      | _ =>
        if s.searchEnabled then "  Type to search · Enter/Space to change · Esc to cancel"
        else "  Enter/Space to change · Esc to cancel")]

/-- `SettingsList.renderMainList`. Width arithmetic uses `Nat`
subtraction, clamping at zero the values that may go negative in
JavaScript; the clamped values are only ever passed to the (trusted,
total) truncation leaf. -/
def SLState.renderMainList (s : SLState) (theme : SettingsListTheme) (width : Nat) :
    List String :=
  let isEditing := match s.mode with | .editing _ _ => true | _ => false
  let searchLines :=
    if s.searchEnabled && !isEditing then s.searchInput.render width ++ [""] else []
  if s.items.length = 0 then
    searchLines ++ [theme.hint "  No settings available"] ++
      (if s.searchEnabled then s.hintLines theme else [])
  else
    let dis := s.displayIdxs.filterMap (fun j => s.items[j]?)
    if dis.length = 0 then
      searchLines ++ [theme.hint "  No matching settings"] ++ s.hintLines theme
    else
      let start :=
        (max 0 (min ((s.selectedIndex : Int) - (s.maxVisible / 2 : Nat))
          ((dis.length : Int) - (s.maxVisible : Int)))).toNat
      let stop := min (start + s.maxVisible) dis.length
      let maxLabelWidth :=
        min 30 ((s.items.map (fun it => visibleWidth it.label)).foldl max 0)
      let rows := (List.range (stop - start)).filterMap (fun o =>
        let i := start + o
        match dis[i]? with
        | none => none
        | some item =>
          let isSel := i = s.selectedIndex
          let isEd := match s.mode with | .editing k _ => k == i | _ => false
          let pre := if isSel then theme.cursor else "  "
          let labelPadded := item.label ++ spaces (maxLabelWidth - visibleWidth item.label)
          let labelText := theme.label labelPadded isSel
          let usedWidth := visibleWidth pre + maxLabelWidth + 2
          let valueMaxWidth := width - usedWidth - 2
          if isEd then
            let inputLine :=
              match s.mode with
              | .editing _ b => (b.render valueMaxWidth).headD ""
              | _ => ""
            some (pre ++ labelText ++ "  " ++ inputLine)
          else
            some (pre ++ labelText ++ "  " ++
              theme.value (truncateToWidth item.currentValue valueMaxWidth "") isSel))
      let scroll :=
        if 0 < start ∨ stop < dis.length then
          [theme.hint (truncateToWidth
            ("  (" ++ toString (s.selectedIndex + 1) ++ "/" ++ toString dis.length ++ ")")
            (width - 2) "")]
        else []
      let desc :=
        match dis[s.selectedIndex]? with
        | some item =>
          match item.description with
          | some d =>
            if isEditing then []
            else "" :: (wrapText d (width - 4)).map (fun l => theme.description ("  " ++ l))
          | none => []
        | none => []
      searchLines ++ rows ++ scroll ++ desc ++ s.hintLines theme

/-- `SettingsList.render`: delegate to an active submenu, else render the
main list. -/
def SLState.render (s : SLState) (theme : SettingsListTheme) (width : Nat) :
    List String :=
  match s.mode with
  | .submenu _ child => child.render theme width
  | _ => s.renderMainList theme width

/-- The ids appended to `selected` by a toggle-on at this step (empty for
every other token or for a toggle-off); instrumentation used to state
"ids actually toggled on". Its agreement with `handleInput` is proved in
`runToggles_fst`. -/
def toggledIds (s : OMSState) (t : Token) : List String :=
  if t = .space then
    if s.buildDisplayItems.length = 0 then []
    else
      match jsGet s.buildDisplayItems s.cursorIndex with
      | some item => if item.selected then [] else [item.option.id]
      | none => []
  else []

/-- Run a token sequence, also collecting every id toggled on along the
way. -/
def OMSState.runToggles : OMSState → List Token → OMSState × List String
  | s, [] => (s, [])
  | s, t :: ts =>
    let r := (s.handleInput t).runToggles ts
    (r.1, toggledIds s t ++ r.2)

/-- JavaScript `String.prototype.startsWith` (character-level model of the
JS builtin). -/
def strStartsWith (s p : String) : Bool :=
  s.toList.take p.toList.length == p.toList

/-- Helper for `splitDoubleColon`. -/
def splitDCAux : List Char → List Char → List String
  | [], acc => [⟨acc.reverse⟩]
  | ':' :: ':' :: cs, acc => (⟨acc.reverse⟩ : String) :: splitDCAux cs []
  | c :: cs, acc => splitDCAux cs (c :: acc)

/-- JavaScript `id.split("::")` (character-level model of the JS
builtin). -/
def splitDoubleColon (s : String) : List String :=
  splitDCAux s.toList []

/-- The `onChange` handler installed by `piLibExtension` in
`extension.ts`: header ids (reserved `__header__` marker) are skipped,
other ids are split on `::` and, when both halves are non-empty, written
through `setSetting`. Returns the `setSetting(extensionName, settingId,
value)` call it performs, if any. -/
def extOnChange (id newValue : String) : Option (String × String × String) :=
  if strStartsWith id "__header__" then none
  else
    match splitDoubleColon id with
    | extensionName :: settingId :: _ =>
      if extensionName ≠ "" ∧ settingId ≠ "" then some (extensionName, settingId, newValue)
      else none
    | _ => none

/-- Sanity check: the spec's ordered multi-select scenario (toggle `b`,
then `a`, then confirm yields `"b,a"`). -/
theorem sanity_oms_scenario :
    ((OMSState.init [⟨"a", "A"⟩, ⟨"b", "B"⟩, ⟨"c", "C"⟩] "").run
      [.down, .space, .space, .enter]).events = [.done (some "b,a")] := by decide

/-- Sanity check: seeding trims whitespace and drops empty tokens. -/
theorem sanity_parse : parseSelected " a , ,b " = ["a", "b"] := by decide

/-- Sanity check: the spec's timeout cycling scenario. -/
theorem sanity_timeout_cycle :
    ((SLState.init [{ id := "timeout", label := "Timeout", currentValue := "30",
                      values := some ["10", "30", "60"] }] 3 false).run [.enter, .enter]).events =
      [.change "timeout" "60", .change "timeout" "10"] := by decide

/-! ## Supporting lemmas: list operations -/

theorem set_of_getElem? {α : Type} {l : List α} {i : Nat} {a : α} (h : l[i]? = some a) :
    l.set i a = l := by
  apply List.ext_getElem?
  intro n
  by_cases hn : n = i
  · subst hn
    rw [List.getElem?_set_self']
    rw [h]
    rfl
  · rw [List.getElem?_set_ne (fun hh => hn hh.symm)]

theorem listSwap_eq {l : List String} {i : Nat} {a b : String}
    (ha : l[i]? = some a) (hb : l[i + 1]? = some b) :
    listSwap l i (i + 1) = (l.set i b).set (i + 1) a := by
  simp [listSwap, ha, hb]

theorem listSwap_perm {l : List String} {i : Nat} {a b : String}
    (ha : l[i]? = some a) (hb : l[i + 1]? = some b) :
    (listSwap l i (i + 1)).Perm l := by
  induction l generalizing i with
  | nil => simp at ha
  | cons x t ih =>
    cases i with
    | zero =>
      cases t with
      | nil => simp at hb
      | cons y t2 =>
        obtain rfl : x = a := by simpa using ha
        obtain rfl : y = b := by simpa using hb
        rw [listSwap_eq ha hb]
        have hred : ((x :: y :: t2).set 0 y).set 1 x = y :: x :: t2 := rfl
        rw [hred]
        exact List.Perm.swap x y t2
    | succ i2 =>
      have ha2 : t[i2]? = some a := by simpa using ha
      have hb2 : t[i2 + 1]? = some b := by simpa using hb
      have hstep : listSwap (x :: t) (i2 + 1) (i2 + 2) = x :: listSwap t i2 (i2 + 1) := by
        simp only [listSwap]
        rw [ha, hb, ha2, hb2]
        rfl
      rw [hstep]
      exact (ih ha2 hb2).cons x

theorem listSwap_getElem?_fst {l : List String} {i : Nat} {a b : String}
    (ha : l[i]? = some a) (hb : l[i + 1]? = some b) :
    (listSwap l i (i + 1))[i]? = some b := by
  rw [listSwap_eq ha hb]
  rw [List.getElem?_set_ne (by omega)]
  have hlt : i < l.length := (List.getElem?_eq_some.mp ha).1
  exact List.getElem?_set_eq_of_lt b hlt

theorem listSwap_getElem?_snd {l : List String} {i : Nat} {a b : String}
    (ha : l[i]? = some a) (hb : l[i + 1]? = some b) :
    (listSwap l i (i + 1))[i + 1]? = some a := by
  rw [listSwap_eq ha hb]
  have hlt : i + 1 < (l.set i b).length := by
    have := (List.getElem?_eq_some.mp hb).1
    simpa using this
  exact List.getElem?_set_eq_of_lt a hlt

theorem listSwap_getElem?_other {l : List String} {i : Nat} {a b : String}
    (ha : l[i]? = some a) (hb : l[i + 1]? = some b) {k : Nat}
    (h1 : k ≠ i) (h2 : k ≠ i + 1) :
    (listSwap l i (i + 1))[k]? = l[k]? := by
  rw [listSwap_eq ha hb]
  rw [List.getElem?_set_ne (fun hh => h2 hh.symm), List.getElem?_set_ne (fun hh => h1 hh.symm)]

theorem listSwap_swap {l : List String} {i : Nat} {a b : String}
    (ha : l[i]? = some a) (hb : l[i + 1]? = some b) :
    listSwap (listSwap l i (i + 1)) i (i + 1) = l := by
  rw [listSwap_eq (listSwap_getElem?_fst ha hb) (listSwap_getElem?_snd ha hb),
    listSwap_eq ha hb]
  rw [List.set_comm a a _ (by omega : i + 1 ≠ i), List.set_set, List.set_set,
    set_of_getElem? ha, set_of_getElem? hb]

theorem jsIndexOf_of_mem {l : List String} {x : String} (h : x ∈ l) :
    jsIndexOf l x = (l.indexOf x : Int) := by
  simp [jsIndexOf, h]

theorem jsIndexOf_getElem {l : List String} (hnd : l.Nodup) {i : Nat} (h : i < l.length) :
    jsIndexOf l l[i] = (i : Int) := by
  rw [jsIndexOf_of_mem (l.getElem_mem h), List.indexOf_getElem hnd i h]

theorem jsIndexOf_of_not_mem {l : List String} {x : String} (h : x ∉ l) :
    jsIndexOf l x = -1 := by
  simp [jsIndexOf, h]

/-! ## Supporting lemmas: the displayed sequence of the multi-select -/

theorem find?_option_id {options : List OrderedListOption} {x : String}
    {o : OrderedListOption} (h : options.find? (fun o2 => o2.id == x) = some o) :
    o.id = x := by
  have := List.find?_some h
  simpa using this

theorem find?_isSome_of_mem {options : List OrderedListOption} {x : String}
    (h : x ∈ options.map (fun o => o.id)) :
    (options.find? (fun o2 => o2.id == x)).isSome := by
  obtain ⟨o, ho, hid⟩ := List.mem_map.mp h
  exact List.find?_isSome.mpr ⟨o, ho, by simp [hid]⟩

theorem buildSel_length {options : List OrderedListOption} {sel : List String}
    (h : ∀ x ∈ sel, (options.find? (fun o2 => o2.id == x)).isSome) :
    ∀ i, (buildSelectedItems options sel i).length = sel.length := by
  induction sel with
  | nil => intro i; rfl
  | cons a rest ih =>
    intro i
    obtain ⟨o, ho⟩ := Option.isSome_iff_exists.mp (h a (by simp))
    simp [buildSelectedItems, ho, ih (fun x hx => h x (List.mem_cons_of_mem _ hx))]

theorem buildSel_getElem? {options : List OrderedListOption} {sel : List String}
    (h : ∀ x ∈ sel, (options.find? (fun o2 => o2.id == x)).isSome) :
    ∀ (k : Nat) (hk : k < sel.length) (i : Nat),
      ∃ o, options.find? (fun o2 => o2.id == sel[k]) = some o ∧
        (buildSelectedItems options sel i)[k]? = some ⟨o, true, i + k + 1⟩ := by
  induction sel with
  | nil => intro k hk; exact absurd hk (by simp)
  | cons a rest ih =>
    intro k hk i
    obtain ⟨o, ho⟩ := Option.isSome_iff_exists.mp (h a (by simp))
    cases k with
    | zero => exact ⟨o, by simpa using ho, by simp [buildSelectedItems, ho]⟩
    | succ k2 =>
      obtain ⟨o2, ho2, hget⟩ :=
        ih (fun x hx => h x (List.mem_cons_of_mem _ hx)) k2 (by simpa using hk) (i + 1)
      refine ⟨o2, by simpa using ho2, ?_⟩
      have harith : i + 1 + k2 + 1 = i + (k2 + 1) + 1 := by omega
      simp only [buildSelectedItems, ho]
      rw [List.getElem?_cons_succ, hget, harith]

theorem buildSel_selected {options : List OrderedListOption} :
    ∀ (sel : List String) (i : Nat) it, it ∈ buildSelectedItems options sel i →
      it.selected = true := by
  intro sel
  induction sel with
  | nil => intro i it h; simp [buildSelectedItems] at h
  | cons a rest ih =>
    intro i it h
    simp only [buildSelectedItems] at h
    cases hfind : options.find? (fun o2 => o2.id == a) with
    | none => rw [hfind] at h; exact ih _ it h
    | some o =>
      rw [hfind] at h
      rcases List.mem_cons.mp h with h1 | h2
      · rw [h1]
      · exact ih _ it h2

theorem buildSel_mem_option {options : List OrderedListOption} :
    ∀ (sel : List String) (i : Nat) it, it ∈ buildSelectedItems options sel i →
      it.option ∈ options := by
  intro sel
  induction sel with
  | nil => intro i it h; simp [buildSelectedItems] at h
  | cons a rest ih =>
    intro i it h
    simp only [buildSelectedItems] at h
    cases hfind : options.find? (fun o2 => o2.id == a) with
    | none => rw [hfind] at h; exact ih _ it h
    | some o =>
      rw [hfind] at h
      rcases List.mem_cons.mp h with h1 | h2
      · rw [h1]; exact List.mem_of_find?_eq_some hfind
      · exact ih _ it h2

theorem buildSel_eq_nil {options : List OrderedListOption} :
    ∀ (sel : List String) (i : Nat), buildSelectedItems options sel i = [] →
      ∀ x ∈ sel, options.find? (fun o2 => o2.id == x) = none := by
  intro sel
  induction sel with
  | nil => intro i h x hx; simp at hx
  | cons a rest ih =>
    intro i h x hx
    simp only [buildSelectedItems] at h
    cases hfind : options.find? (fun o2 => o2.id == a) with
    | none =>
      rw [hfind] at h
      rcases List.mem_cons.mp hx with rfl | hx2
      · exact hfind
      · exact ih _ h x hx2
    | some o => rw [hfind] at h; simp at h

theorem filter_contains_length {options : List OrderedListOption} {sel : List String}
    (hids : (options.map (fun o => o.id)).Nodup) (hsel : sel.Nodup)
    (hsub : ∀ x ∈ sel, x ∈ options.map (fun o => o.id)) :
    (options.filter (fun o => sel.contains o.id)).length = sel.length := by
  induction options generalizing sel with
  | nil =>
    have hnil : sel = [] := by
      cases sel with
      | nil => rfl
      | cons a t => exact absurd (hsub a (by simp)) (by simp)
    simp [hnil]
  | cons o rest ih =>
    simp only [List.map_cons, List.nodup_cons] at hids
    obtain ⟨ho_nin, hrest_nd⟩ := hids
    by_cases hmem : o.id ∈ sel
    · have hcont : sel.contains o.id = true := by simpa using hmem
      rw [List.filter_cons_of_pos (by simpa using hmem)]
      have hcong : rest.filter (fun o2 => sel.contains o2.id) =
          rest.filter (fun o2 => (sel.erase o.id).contains o2.id) := by
        apply List.filter_congr
        intro o2 ho2
        have hne : o2.id ≠ o.id := fun hh => ho_nin (hh ▸ List.mem_map_of_mem _ ho2)
        by_cases hin : o2.id ∈ sel
        · have : o2.id ∈ sel.erase o.id := (hsel.mem_erase_iff).mpr ⟨hne, hin⟩
          simp [hin, this]
        · have : o2.id ∉ sel.erase o.id := fun hh =>
            hin ((hsel.mem_erase_iff).mp hh).2
          simp [hin, this]
      rw [hcong]
      have hlen : (sel.erase o.id).length = sel.length - 1 :=
        List.length_erase_of_mem hmem
      have hpos : 0 < sel.length := List.length_pos.mpr (List.ne_nil_of_mem hmem)
      have hih := ih hrest_nd (hsel.erase o.id)
        (fun x hx => by
          have hx2 := (hsel.mem_erase_iff).mp hx
          have := hsub x hx2.2
          simp only [List.map_cons, List.mem_cons] at this
          rcases this with h1 | h2
          · exact absurd h1 hx2.1
          · exact h2)
      simp only [List.length_cons, hih, hlen]
      omega
    · have hcont : sel.contains o.id = false := by simpa using hmem
      rw [List.filter_cons_of_neg (by simpa using hmem)]
      exact ih hrest_nd hsel
        (fun x hx => by
          have := hsub x hx
          simp only [List.map_cons, List.mem_cons] at this
          rcases this with h1 | h2
          · exact absurd (h1 ▸ hx) hmem
          · exact h2)

theorem display_length_eq {s : OMSState}
    (hids : (s.options.map (fun o => o.id)).Nodup)
    (hsel : s.selected.Nodup)
    (hsub : ∀ x ∈ s.selected, x ∈ s.options.map (fun o => o.id)) :
    s.buildDisplayItems.length = s.options.length := by
  unfold OMSState.buildDisplayItems
  rw [List.length_append,
    buildSel_length (fun x hx => find?_isSome_of_mem (hsub x hx)) 0,
    List.length_map]
  have hc := filter_contains_length hids hsel hsub
  have hp := (List.filter_append_perm (fun o => s.selected.contains o.id) s.options).length_eq
  rw [List.length_append] at hp
  have hle : s.selected.length ≤ s.options.length := by
    have := (hsel.subperm (fun x hx => hsub x hx)).length_le
    simpa using this
  have hfeq : (s.options.filter (fun o => !s.selected.contains o.id)).length =
      s.options.length - s.selected.length := by omega
  omega

theorem display_getElem?_lt {s : OMSState}
    (hsub : ∀ x ∈ s.selected, x ∈ s.options.map (fun o => o.id))
    {k : Nat} (hk : k < s.selected.length) :
    ∃ o, s.options.find? (fun o2 => o2.id == s.selected[k]) = some o ∧
      s.buildDisplayItems[k]? = some ⟨o, true, k + 1⟩ := by
  have hfound := fun x hx => find?_isSome_of_mem (hsub x hx)
  obtain ⟨o, ho, hget⟩ := buildSel_getElem? hfound k hk 0
  refine ⟨o, ho, ?_⟩
  unfold OMSState.buildDisplayItems
  rw [List.getElem?_append]
  rw [if_pos (by rw [buildSel_length hfound 0]; exact hk)]
  simpa using hget

theorem display_getElem?_ge {s : OMSState}
    (hsub : ∀ x ∈ s.selected, x ∈ s.options.map (fun o => o.id))
    {k : Nat} (hk : s.selected.length ≤ k) :
    s.buildDisplayItems[k]? =
      ((s.options.filter (fun o => !(s.selected.contains o.id))).map
        (fun o => (⟨o, false, 0⟩ : DisplayItem)))[k - s.selected.length]? := by
  have hfound := fun x hx => find?_isSome_of_mem (hsub x hx)
  unfold OMSState.buildDisplayItems
  rw [List.getElem?_append]
  rw [if_neg (by rw [buildSel_length hfound 0]; omega)]
  rw [buildSel_length hfound 0]

theorem display_mem_option {s : OMSState} {it : DisplayItem}
    (h : it ∈ s.buildDisplayItems) : it.option ∈ s.options := by
  unfold OMSState.buildDisplayItems at h
  rcases List.mem_append.mp h with h1 | h2
  · exact buildSel_mem_option _ _ it h1
  · obtain ⟨o, ho, rfl⟩ := List.mem_map.mp h2
    exact List.mem_of_mem_filter ho

theorem display_not_selected {s : OMSState} {it : DisplayItem}
    (h : it ∈ s.buildDisplayItems) (hsel : it.selected = false) :
    it.option ∈ s.options ∧ it.option.id ∉ s.selected := by
  unfold OMSState.buildDisplayItems at h
  rcases List.mem_append.mp h with h1 | h2
  · rw [buildSel_selected _ _ it h1] at hsel; cases hsel
  · obtain ⟨o, ho, rfl⟩ := List.mem_map.mp h2
    refine ⟨List.mem_of_mem_filter ho, ?_⟩
    have := List.of_mem_filter ho
    simpa using this

theorem jsGet_mem {α : Type} {l : List α} {i : Int} {x : α} (h : jsGet l i = some x) :
    x ∈ l := by
  unfold jsGet at h
  split at h
  · cases h
  · exact List.getElem?_mem h

/-! ## Supporting lemmas: multi-select steps -/

theorem jsGet_ofNat {α : Type} (l : List α) (c : Nat) : jsGet l (c : Int) = l[c]? := by
  simp [jsGet]

theorem handleInput_options (s : OMSState) (t : Token) :
    (s.handleInput t).options = s.options := by
  simp only [OMSState.handleInput]
  split
  · split <;> rfl
  · cases t <;> simp only [OMSState.toggleCurrent, OMSState.moveUp, OMSState.moveDown] <;>
      (repeat' split) <;> rfl

theorem empty_noop {s : OMSState} (h : s.buildDisplayItems.length = 0) {t : Token}
    (ht : t ≠ .escape) : s.handleInput t = s := by
  simp only [OMSState.handleInput]
  rw [if_pos h, if_neg ht]

theorem escape_step (s : OMSState) :
    s.handleInput .escape = { s with events := s.events ++ [.done none] } := by
  simp only [OMSState.handleInput]
  split
  · simp
  · rfl

theorem enter_step {s : OMSState} (hne : s.buildDisplayItems.length ≠ 0) :
    s.handleInput .enter =
      { s with events := s.events ++ [.done (some (String.intercalate "," s.selected))] } := by
  simp only [OMSState.handleInput]
  rw [if_neg hne]

theorem text_noop (s : OMSState) (str : String) : s.handleInput (.text str) = s := by
  simp only [OMSState.handleInput]
  split
  · rw [if_neg (by simp)]
  · rfl

theorem up_step {s : OMSState} (hne : s.buildDisplayItems.length ≠ 0) :
    s.handleInput .up =
      { s with cursorIndex :=
          if s.cursorIndex = 0 then (s.buildDisplayItems.length : Int) - 1
          else s.cursorIndex - 1 } := by
  simp only [OMSState.handleInput]
  rw [if_neg hne]

theorem down_step {s : OMSState} (hne : s.buildDisplayItems.length ≠ 0) :
    s.handleInput .down =
      { s with cursorIndex :=
          if s.cursorIndex = (s.buildDisplayItems.length : Int) - 1 then 0
          else s.cursorIndex + 1 } := by
  simp only [OMSState.handleInput]
  rw [if_neg hne]

theorem toggle_step {s : OMSState} {it : DisplayItem}
    (hget : jsGet s.buildDisplayItems s.cursorIndex = some it) :
    s.handleInput .space =
      { s with selected :=
          if it.selected then s.selected.filter (fun x => x != it.option.id)
          else s.selected ++ [it.option.id] } := by
  have hne : s.buildDisplayItems.length ≠ 0 :=
    fun h => by
      rw [List.length_eq_zero.mp h] at hget
      simp [jsGet] at hget
  simp only [OMSState.handleInput]
  rw [if_neg hne]
  simp only [OMSState.toggleCurrent]
  simp only [hget]
  split <;> rfl

theorem cursor_miss_noop {s : OMSState}
    (hget : jsGet s.buildDisplayItems s.cursorIndex = none) :
    s.handleInput .space = s ∧ s.handleInput .shiftUp = s ∧
      s.handleInput .shiftDown = s := by
  by_cases hlen : s.buildDisplayItems.length = 0
  · exact ⟨empty_noop hlen (by simp), empty_noop hlen (by simp), empty_noop hlen (by simp)⟩
  · refine ⟨?_, ?_, ?_⟩ <;>
      · simp only [OMSState.handleInput]
        rw [if_neg hlen]
        simp only [OMSState.toggleCurrent, OMSState.moveUp, OMSState.moveDown]
        simp only [hget]

theorem move_unselected_noop {s : OMSState} {it : DisplayItem}
    (hget : jsGet s.buildDisplayItems s.cursorIndex = some it)
    (hsel : it.selected = false) :
    s.handleInput .shiftUp = s ∧ s.handleInput .shiftDown = s := by
  have hne : s.buildDisplayItems.length ≠ 0 :=
    fun h => by
      rw [List.length_eq_zero.mp h] at hget
      simp [jsGet] at hget
  constructor <;>
    · simp only [OMSState.handleInput]
      rw [if_neg hne]
      simp only [OMSState.moveUp, OMSState.moveDown]
      simp only [hget, hsel]
      simp

theorem moveUp_step {s : OMSState} {c : Nat}
    (hids : (s.options.map (fun o => o.id)).Nodup)
    (hsel : s.selected.Nodup)
    (hsub : ∀ x ∈ s.selected, x ∈ s.options.map (fun o => o.id))
    (hc : s.cursorIndex = (c : Int)) (hcl : c < s.selected.length) (hpos : 0 < c) :
    s.handleInput .shiftUp =
      { s with selected := listSwap s.selected (c - 1) c,
               cursorIndex := (c : Int) - 1 } := by
  obtain ⟨o, ho, hdisp⟩ := display_getElem?_lt hsub hcl
  have hne : s.buildDisplayItems.length ≠ 0 := by
    rw [display_length_eq hids hsel hsub]
    have hle : s.selected.length ≤ s.options.length := by
      have := (hsel.subperm (fun x hx => hsub x hx)).length_le
      simpa using this
    omega
  simp only [OMSState.handleInput]
  rw [if_neg hne]
  simp only [OMSState.moveUp]
  rw [hc, jsGet_ofNat]
  simp only [hdisp]
  have hid : (⟨o, true, c + 1⟩ : DisplayItem).option.id = s.selected[c] :=
    find?_option_id ho
  have hidx : jsIndexOf s.selected (⟨o, true, c + 1⟩ : DisplayItem).option.id = (c : Int) := by
    rw [hid]
    exact jsIndexOf_getElem hsel hcl
  rw [hidx]
  rw [if_neg (show ¬ ((c : Int) ≤ 0) by omega)]
  have htn : ((c : Int)).toNat = c := rfl
  rw [htn]
  rfl

theorem moveDown_step {s : OMSState} {c : Nat}
    (hids : (s.options.map (fun o => o.id)).Nodup)
    (hsel : s.selected.Nodup)
    (hsub : ∀ x ∈ s.selected, x ∈ s.options.map (fun o => o.id))
    (hc : s.cursorIndex = (c : Int)) (hcl : c + 1 < s.selected.length) :
    s.handleInput .shiftDown =
      { s with selected := listSwap s.selected c (c + 1),
               cursorIndex := (c : Int) + 1 } := by
  obtain ⟨o, ho, hdisp⟩ := display_getElem?_lt hsub (by omega : c < s.selected.length)
  have hne : s.buildDisplayItems.length ≠ 0 := by
    rw [display_length_eq hids hsel hsub]
    have hle : s.selected.length ≤ s.options.length := by
      have := (hsel.subperm (fun x hx => hsub x hx)).length_le
      simpa using this
    omega
  simp only [OMSState.handleInput]
  rw [if_neg hne]
  simp only [OMSState.moveDown]
  rw [hc, jsGet_ofNat]
  simp only [hdisp]
  have hid : (⟨o, true, c + 1⟩ : DisplayItem).option.id = s.selected[c] :=
    find?_option_id ho
  have hidx : jsIndexOf s.selected (⟨o, true, c + 1⟩ : DisplayItem).option.id = (c : Int) := by
    rw [hid]
    exact jsIndexOf_getElem hsel (by omega)
  rw [hidx]
  rw [if_neg (show ¬ ((c : Int) < 0 ∨ (s.selected.length : Int) - 1 ≤ (c : Int)) by
    omega)]
  have htn : ((c : Int)).toNat = c := rfl
  rw [htn]
  rfl

theorem moveUp_boundary {s : OMSState}
    (hids : (s.options.map (fun o => o.id)).Nodup)
    (hsel : s.selected.Nodup)
    (hsub : ∀ x ∈ s.selected, x ∈ s.options.map (fun o => o.id))
    (hc : s.cursorIndex = 0) (hcl : 0 < s.selected.length) :
    s.handleInput .shiftUp = s := by
  obtain ⟨o, ho, hdisp⟩ := display_getElem?_lt hsub hcl
  have hne : s.buildDisplayItems.length ≠ 0 := by
    rw [display_length_eq hids hsel hsub]
    have hle : s.selected.length ≤ s.options.length := by
      have := (hsel.subperm (fun x hx => hsub x hx)).length_le
      simpa using this
    omega
  simp only [OMSState.handleInput]
  rw [if_neg hne]
  simp only [OMSState.moveUp]
  rw [hc, show ((0 : Int) = ((0 : Nat) : Int)) from rfl, jsGet_ofNat]
  simp only [hdisp]
  have hid : (⟨o, true, 0 + 1⟩ : DisplayItem).option.id = s.selected[0] :=
    find?_option_id ho
  have hidx : jsIndexOf s.selected (⟨o, true, 0 + 1⟩ : DisplayItem).option.id = (0 : Int) := by
    rw [hid]
    exact jsIndexOf_getElem hsel hcl
  rw [hidx]
  simp

theorem moveDown_boundary {s : OMSState} {c : Nat}
    (hids : (s.options.map (fun o => o.id)).Nodup)
    (hsel : s.selected.Nodup)
    (hsub : ∀ x ∈ s.selected, x ∈ s.options.map (fun o => o.id))
    (hc : s.cursorIndex = (c : Int)) (hcl : c < s.selected.length)
    (hlast : c + 1 = s.selected.length) :
    s.handleInput .shiftDown = s := by
  obtain ⟨o, ho, hdisp⟩ := display_getElem?_lt hsub hcl
  have hne : s.buildDisplayItems.length ≠ 0 := by
    rw [display_length_eq hids hsel hsub]
    have hle : s.selected.length ≤ s.options.length := by
      have := (hsel.subperm (fun x hx => hsub x hx)).length_le
      simpa using this
    omega
  simp only [OMSState.handleInput]
  rw [if_neg hne]
  simp only [OMSState.moveDown]
  rw [hc, jsGet_ofNat]
  simp only [hdisp]
  have hid : (⟨o, true, c + 1⟩ : DisplayItem).option.id = s.selected[c] :=
    find?_option_id ho
  have hidx : jsIndexOf s.selected (⟨o, true, c + 1⟩ : DisplayItem).option.id = (c : Int) := by
    rw [hid]
    exact jsIndexOf_getElem hsel hcl
  rw [hidx]
  rw [if_pos (show ((c : Int) < 0 ∨ (s.selected.length : Int) - 1 ≤ (c : Int)) by
    omega)]
  simp

/-! ## Supporting lemmas: evolution of `selected` -/

theorem jsIndexOf_nonneg_mem {l : List String} {x : String} (h : 0 ≤ jsIndexOf l x) :
    x ∈ l ∧ jsIndexOf l x = (l.indexOf x : Int) := by
  by_cases hm : x ∈ l
  · exact ⟨hm, jsIndexOf_of_mem hm⟩
  · rw [jsIndexOf_of_not_mem hm] at h
    omega

theorem shiftUp_selected_perm (s : OMSState) :
    (s.handleInput .shiftUp).selected = s.selected ∨
      (s.handleInput .shiftUp).selected.Perm s.selected := by
  simp only [OMSState.handleInput]
  split
  · exact Or.inl rfl
  · simp only [OMSState.moveUp]
    cases hget : jsGet s.buildDisplayItems s.cursorIndex with
    | none => left; simp only [hget]
    | some it =>
      simp only [hget]
      by_cases hsel : it.selected = true
      · rw [if_pos hsel]
        by_cases hidx : jsIndexOf s.selected it.option.id ≤ 0
        · rw [if_pos hidx]
          exact Or.inl rfl
        · rw [if_neg hidx]
          right
          obtain ⟨hm, hj⟩ := jsIndexOf_nonneg_mem (by omega : 0 ≤ jsIndexOf s.selected it.option.id)
          have hlt : (jsIndexOf s.selected it.option.id).toNat < s.selected.length := by
            rw [hj]
            simpa using List.indexOf_lt_length.mpr hm
          have hpos : 1 ≤ (jsIndexOf s.selected it.option.id).toNat := by omega
          have h1 : (jsIndexOf s.selected it.option.id).toNat - 1 + 1 =
              (jsIndexOf s.selected it.option.id).toNat := by omega
          have ha : s.selected[(jsIndexOf s.selected it.option.id).toNat - 1]? =
              some s.selected[(jsIndexOf s.selected it.option.id).toNat - 1] :=
            List.getElem?_eq_getElem (by omega)
          have hb : s.selected[(jsIndexOf s.selected it.option.id).toNat - 1 + 1]? =
              some s.selected[(jsIndexOf s.selected it.option.id).toNat] := by
            rw [h1]
            exact List.getElem?_eq_getElem hlt
          have hp := listSwap_perm ha hb
          rw [h1] at hp
          exact hp
      · rw [if_neg hsel]
        exact Or.inl rfl

theorem shiftDown_selected_perm (s : OMSState) :
    (s.handleInput .shiftDown).selected = s.selected ∨
      (s.handleInput .shiftDown).selected.Perm s.selected := by
  simp only [OMSState.handleInput]
  split
  · exact Or.inl rfl
  · simp only [OMSState.moveDown]
    cases hget : jsGet s.buildDisplayItems s.cursorIndex with
    | none => left; simp only [hget]
    | some it =>
      simp only [hget]
      by_cases hsel : it.selected = true
      · rw [if_pos hsel]
        by_cases hidx : jsIndexOf s.selected it.option.id < 0 ∨
            (s.selected.length : Int) - 1 ≤ jsIndexOf s.selected it.option.id
        · rw [if_pos hidx]
          exact Or.inl rfl
        · rw [if_neg hidx]
          right
          push_neg at hidx
          obtain ⟨hm, hj⟩ := jsIndexOf_nonneg_mem (by omega : 0 ≤ jsIndexOf s.selected it.option.id)
          have hlt : (jsIndexOf s.selected it.option.id).toNat + 1 < s.selected.length := by
            omega
          have ha : s.selected[(jsIndexOf s.selected it.option.id).toNat]? =
              some s.selected[(jsIndexOf s.selected it.option.id).toNat] :=
            List.getElem?_eq_getElem (by omega)
          have hb : s.selected[(jsIndexOf s.selected it.option.id).toNat + 1]? =
              some s.selected[(jsIndexOf s.selected it.option.id).toNat + 1] :=
            List.getElem?_eq_getElem hlt
          exact listSwap_perm ha hb
      · rw [if_neg hsel]
        exact Or.inl rfl

theorem handleInput_selected_shape (s : OMSState) (t : Token) :
    (s.handleInput t).selected = s.selected ∨
    (s.handleInput t).selected.Perm s.selected ∨
    (t = .space ∧ s.buildDisplayItems.length ≠ 0 ∧
      ∃ it, jsGet s.buildDisplayItems s.cursorIndex = some it ∧
        it ∈ s.buildDisplayItems ∧
        ((it.selected = true ∧
          (s.handleInput t).selected = s.selected.filter (fun x => x != it.option.id)) ∨
         (it.selected = false ∧
          (s.handleInput t).selected = s.selected ++ [it.option.id]))) := by
  by_cases hlen : s.buildDisplayItems.length = 0
  · by_cases ht : t = Token.escape
    · subst ht
      rw [escape_step]
      exact Or.inl rfl
    · rw [empty_noop hlen ht]
      exact Or.inl rfl
  · cases t with
    | up => rw [up_step hlen]; exact Or.inl rfl
    | down => rw [down_step hlen]; exact Or.inl rfl
    | enter => rw [enter_step hlen]; exact Or.inl rfl
    | escape => rw [escape_step]; exact Or.inl rfl
    | text str => rw [text_noop]; exact Or.inl rfl
    | shiftUp =>
      rcases shiftUp_selected_perm s with h | h
      · exact Or.inl h
      · exact Or.inr (Or.inl h)
    | shiftDown =>
      rcases shiftDown_selected_perm s with h | h
      · exact Or.inl h
      · exact Or.inr (Or.inl h)
    | space =>
      cases hget : jsGet s.buildDisplayItems s.cursorIndex with
      | none => exact Or.inl (congrArg OMSState.selected (cursor_miss_noop hget).1)
      | some it =>
        refine Or.inr (Or.inr ⟨rfl, hlen, ⟨it, rfl, jsGet_mem hget, ?_⟩⟩)
        rw [toggle_step hget]
        by_cases hs : it.selected = true
        · exact Or.inl ⟨hs, by rw [if_pos hs]⟩
        · exact Or.inr ⟨by simpa using hs, by rw [if_neg hs]⟩

theorem toggledIds_sub {s : OMSState} {t : Token} {x : String}
    (hx : x ∈ toggledIds s t) : x ∈ s.options.map (fun o => o.id) := by
  unfold toggledIds at hx
  split at hx
  · split at hx
    · simp at hx
    · split at hx
      · split at hx
        · simp at hx
        · rename_i it hget hneg
          simp at hx
          subst hx
          exact List.mem_map_of_mem _ (display_mem_option (jsGet_mem hget))
      · simp at hx
  · simp at hx

theorem handleInput_mem_selected {s : OMSState} {t : Token} {x : String}
    (hx : x ∈ (s.handleInput t).selected) :
    x ∈ s.selected ∨ x ∈ toggledIds s t := by
  rcases handleInput_selected_shape s t with h | h | ⟨ht, hlen, it, hget, hmem, hcase⟩
  · left
    rwa [h] at hx
  · left
    exact h.mem_iff.mp hx
  · rcases hcase with ⟨hsel, he⟩ | ⟨hsel, he⟩
    · left
      rw [he] at hx
      exact (List.mem_filter.mp hx).1
    · rw [he] at hx
      rcases List.mem_append.mp hx with h1 | h1
      · exact Or.inl h1
      · right
        subst ht
        unfold toggledIds
        rw [if_pos rfl, if_neg hlen, hget]
        simpa [hsel] using h1

theorem handleInput_nodup {s : OMSState} (t : Token) (h : s.selected.Nodup) :
    (s.handleInput t).selected.Nodup := by
  rcases handleInput_selected_shape s t with h1 | h1 | ⟨ht, hlen, it, hget, hmem, hcase⟩
  · rwa [h1]
  · exact h1.symm.nodup h
  · rcases hcase with ⟨hsel, he⟩ | ⟨hsel, he⟩
    · rw [he]
      exact h.filter _
    · rw [he]
      have hnin := (display_not_selected hmem hsel).2
      rw [List.nodup_append]
      refine ⟨h, List.nodup_singleton _, ?_⟩
      intro y hy1 hy2
      exact hnin ((List.mem_singleton.mp hy2) ▸ hy1)

theorem handleInput_count_unknown {s : OMSState} {x : String} (t : Token)
    (hx : x ∉ s.options.map (fun o => o.id)) :
    (s.handleInput t).selected.count x = s.selected.count x := by
  rcases handleInput_selected_shape s t with h | h | ⟨ht, hlen, it, hget, hmem, hcase⟩
  · rw [h]
  · exact h.count_eq x
  · have hidm : it.option.id ∈ s.options.map (fun o => o.id) :=
      List.mem_map_of_mem _ (display_mem_option hmem)
    have hne : x ≠ it.option.id := fun hh => hx (hh ▸ hidm)
    rcases hcase with ⟨hsel, he⟩ | ⟨hsel, he⟩
    · rw [he]
      rw [List.count_filter (by simpa using hne)]
    · rw [he, List.count_append]
      simp [List.count_singleton, hne]

theorem handleInput_mem_options {s : OMSState} {t : Token} {x : String}
    (hsub : ∀ y ∈ s.selected, y ∈ s.options.map (fun o => o.id))
    (hx : x ∈ (s.handleInput t).selected) :
    x ∈ s.options.map (fun o => o.id) := by
  rcases handleInput_mem_selected hx with h | h
  · exact hsub x h
  · exact toggledIds_sub h

/-! ## Supporting lemmas: the cursor invariant of the multi-select -/

theorem display_part2_selected_false {s : OMSState} {k : Nat} {it : DisplayItem}
    (h : ((s.options.filter (fun o => !(s.selected.contains o.id))).map
        (fun o => (⟨o, false, 0⟩ : DisplayItem)))[k]? = some it) :
    it.selected = false := by
  have hmem := List.getElem?_mem h
  obtain ⟨o, _, rfl⟩ := List.mem_map.mp hmem
  rfl

theorem display_cursor_unselected {s : OMSState} {c : Nat} {it : DisplayItem}
    (hsub : ∀ x ∈ s.selected, x ∈ s.options.map (fun o => o.id))
    (hk : s.selected.length ≤ c)
    (h : s.buildDisplayItems[c]? = some it) :
    it.selected = false := by
  rw [display_getElem?_ge hsub hk] at h
  exact display_part2_selected_false h

theorem good_preserved {s : OMSState} (t : Token)
    (hids : (s.options.map (fun o => o.id)).Nodup)
    (hsel : s.selected.Nodup)
    (hsub : ∀ x ∈ s.selected, x ∈ s.options.map (fun o => o.id))
    (hc0 : 0 ≤ s.cursorIndex)
    (hcl : s.cursorIndex < (s.options.length : Int)) :
    (((s.handleInput t).options.map (fun o => o.id)).Nodup ∧
      ((s.handleInput t).selected.Nodup ∧
        (∀ x ∈ (s.handleInput t).selected,
          x ∈ (s.handleInput t).options.map (fun o => o.id)))) ∧
    0 ≤ (s.handleInput t).cursorIndex ∧
    (s.handleInput t).cursorIndex < ((s.handleInput t).options.length : Int) := by
  have hopt := handleInput_options s t
  have hdl : s.buildDisplayItems.length = s.options.length :=
    display_length_eq hids hsel hsub
  have hne : s.buildDisplayItems.length ≠ 0 := by omega
  refine ⟨⟨by rw [hopt]; exact hids, handleInput_nodup t hsel, ?_⟩, ?_⟩
  · intro x hx
    rw [hopt]
    exact handleInput_mem_options hsub hx
  · -- cursor bounds
    rw [hopt]
    obtain ⟨c, hc⟩ : ∃ c : Nat, s.cursorIndex = (c : Int) :=
      ⟨s.cursorIndex.toNat, by omega⟩
    have hcn : c < s.options.length := by omega
    cases t with
    | up =>
      rw [up_step hne]
      simp only [hdl]
      split <;> omega
    | down =>
      rw [down_step hne]
      simp only [hdl]
      split <;> omega
    | enter =>
      rw [enter_step hne]
      exact ⟨hc0, hcl⟩
    | escape =>
      rw [escape_step]
      exact ⟨hc0, hcl⟩
    | text str =>
      rw [text_noop]
      exact ⟨hc0, hcl⟩
    | space =>
      cases hget : jsGet s.buildDisplayItems s.cursorIndex with
      | none =>
        rw [(cursor_miss_noop hget).1]
        exact ⟨hc0, hcl⟩
      | some it =>
        rw [toggle_step hget]
        exact ⟨hc0, hcl⟩
    | shiftUp =>
      by_cases hcsel : c < s.selected.length
      · by_cases hczero : c = 0
        · rw [moveUp_boundary hids hsel hsub (by rw [hc, hczero]; rfl) (by omega)]
          exact ⟨hc0, hcl⟩
        · rw [moveUp_step hids hsel hsub hc hcsel (by omega)]
          constructor <;> simp <;> omega
      · obtain ⟨it, hit⟩ : ∃ it, s.buildDisplayItems[c]? = some it := by
          have : c < s.buildDisplayItems.length := by omega
          exact ⟨_, List.getElem?_eq_getElem this⟩
        have hitf : it.selected = false :=
          display_cursor_unselected hsub (by omega) hit
        have hjs : jsGet s.buildDisplayItems s.cursorIndex = some it := by
          rw [hc, jsGet_ofNat]
          exact hit
        rw [(move_unselected_noop hjs hitf).1]
        exact ⟨hc0, hcl⟩
    | shiftDown =>
      by_cases hcsel : c < s.selected.length
      · by_cases hclast : c + 1 = s.selected.length
        · rw [moveDown_boundary hids hsel hsub hc hcsel hclast]
          exact ⟨hc0, hcl⟩
        · have hlt : c + 1 < s.selected.length := by omega
          rw [moveDown_step hids hsel hsub hc hlt]
          have hselle : s.selected.length ≤ s.options.length := by
            have := (hsel.subperm (fun x hx => hsub x hx)).length_le
            simpa using this
          constructor <;> simp <;> omega
      · obtain ⟨it, hit⟩ : ∃ it, s.buildDisplayItems[c]? = some it := by
          have : c < s.buildDisplayItems.length := by omega
          exact ⟨_, List.getElem?_eq_getElem this⟩
        have hitf : it.selected = false :=
          display_cursor_unselected hsub (by omega) hit
        have hjs : jsGet s.buildDisplayItems s.cursorIndex = some it := by
          rw [hc, jsGet_ofNat]
          exact hit
        rw [(move_unselected_noop hjs hitf).2]
        exact ⟨hc0, hcl⟩

theorem run_good {s : OMSState} (ts : List Token)
    (hids : (s.options.map (fun o => o.id)).Nodup)
    (hsel : s.selected.Nodup)
    (hsub : ∀ x ∈ s.selected, x ∈ s.options.map (fun o => o.id))
    (hc0 : 0 ≤ s.cursorIndex)
    (hcl : s.cursorIndex < (s.options.length : Int)) :
    (((s.run ts).options.map (fun o => o.id)).Nodup ∧
      ((s.run ts).selected.Nodup ∧
        (∀ x ∈ (s.run ts).selected,
          x ∈ (s.run ts).options.map (fun o => o.id)))) ∧
    0 ≤ (s.run ts).cursorIndex ∧
    (s.run ts).cursorIndex < (((s.run ts).options.length : Int)) := by
  induction ts generalizing s with
  | nil => exact ⟨⟨hids, hsel, hsub⟩, hc0, hcl⟩
  | cons t rest ih =>
    obtain ⟨⟨h1, h2, h3⟩, h4, h5⟩ := good_preserved t hids hsel hsub hc0 hcl
    exact ih h1 h2 h3 h4 h5

/-! ## Supporting lemmas: settings-list steps -/

theorem handleInput_browsing_activate {s : SLState} {t : Token} (hm : s.mode = .browsing)
    (ht : t = Token.enter ∨ t = Token.space) :
    s.handleInput t = s.activateItem := by
  rcases ht with rfl | rfl <;> simp only [SLState.handleInput, hm]

theorem activateItem_cycle {s : SLState} {j : Nat} {item : SettingItem} {vs : List String}
    (hd : s.displayIdxs[s.selectedIndex]? = some j)
    (hi : s.items[j]? = some item)
    (hsub : item.submenu = none)
    (hv : item.values = some vs)
    (hne : vs ≠ []) :
    s.activateItem =
      { s with
        items := s.items.set j { item with currentValue := cycVal vs item.currentValue }
        events := s.events ++ [SLEvent.change item.id (cycVal vs item.currentValue)] } := by
  simp only [SLState.activateItem, hd, hi, hsub, hv, Option.getD_some]
  rw [if_pos (by simpa using List.length_pos.mpr hne)]

theorem activateItem_freetext {s : SLState} {j : Nat} {item : SettingItem}
    (hd : s.displayIdxs[s.selectedIndex]? = some j)
    (hi : s.items[j]? = some item)
    (hsub : item.submenu = none)
    (hv : item.values.getD [] = []) :
    s.activateItem = { s with mode := .editing s.selectedIndex ⟨item.currentValue⟩ } := by
  simp only [SLState.activateItem, hd, hi, hsub]
  rw [if_neg (by rw [hv]; simp)]
  try rfl

theorem activateItem_miss {s : SLState}
    (hd : s.displayGet s.selectedIndex = none) :
    s.activateItem = s := by
  unfold SLState.displayGet at hd
  simp only [SLState.activateItem]
  cases h1 : s.displayIdxs[s.selectedIndex]? with
  | none => rfl
  | some j =>
    rw [h1] at hd
    have hd2 : s.items[j]? = none := by simpa using hd
    simp only [hd2]

theorem editing_forward {s : SLState} {j : Nat} {buf : InputBuf} {t : Token}
    (hm : s.mode = .editing j buf) (h1 : t ≠ Token.enter) (h2 : t ≠ Token.escape) :
    s.handleInput t = { s with mode := .editing j (buf.handleInput t) } := by
  cases t with
  | enter => exact absurd rfl h1
  | escape => exact absurd rfl h2
  | up => simp only [SLState.handleInput, hm, SLState.handleEditingInput]
  | down => simp only [SLState.handleInput, hm, SLState.handleEditingInput]
  | space => simp only [SLState.handleInput, hm, SLState.handleEditingInput]
  | shiftUp => simp only [SLState.handleInput, hm, SLState.handleEditingInput]
  | shiftDown => simp only [SLState.handleInput, hm, SLState.handleEditingInput]
  | text str => simp only [SLState.handleInput, hm, SLState.handleEditingInput]

theorem editing_escape {s : SLState} {j : Nat} {buf : InputBuf}
    (hm : s.mode = .editing j buf) :
    s.handleInput .escape = { s with mode := .browsing } := by
  simp only [SLState.handleInput, hm, SLState.handleEditingInput]

theorem editing_run {ts : List Token} (h : ∀ t ∈ ts, t ≠ Token.enter ∧ t ≠ Token.escape) :
    ∀ (s : SLState) (j : Nat) (buf : InputBuf), s.mode = .editing j buf →
      ∃ buf2, s.run ts = { s with mode := .editing j buf2 } := by
  induction ts with
  | nil =>
    intro s j buf hm
    refine ⟨buf, ?_⟩
    rw [← hm]
    rfl
  | cons t rest ih =>
    intro s j buf hm
    obtain ⟨h1, h2⟩ := h t (by simp)
    rw [show s.run (t :: rest) = (s.handleInput t).run rest from rfl]
    rw [editing_forward hm h1 h2]
    obtain ⟨buf2, hb⟩ :=
      ih (fun x hx => h x (List.mem_cons_of_mem _ hx))
        { s with mode := .editing j (buf.handleInput t) } j (buf.handleInput t) rfl
    exact ⟨buf2, by rw [hb]⟩

theorem mode_eta {s : SLState} (hm : s.mode = .browsing) :
    { s with mode := SLMode.browsing } = s := by
  rw [← hm]

theorem displayIdxs_update {s : SLState} {j : Nat} {item : SettingItem} {ev : List SLEvent} :
    ({ s with items := s.items.set j item, events := ev } : SLState).displayIdxs =
      s.displayIdxs := by
  simp [SLState.displayIdxs]

/-! ## Supporting lemmas: the cycling computation -/

theorem cycVal_indexOf {vs : List String} {cur : String} (hm : cur ∈ vs) :
    vs[(vs.indexOf cur + 1) % vs.length]? = some (cycVal vs cur) := by
  unfold cycVal
  rw [jsIndexOf_of_mem hm]
  have hpos : 0 < vs.length := List.length_pos.mpr (List.ne_nil_of_mem hm)
  have hcast : (((vs.indexOf cur : Int) + 1) % (vs.length : Int)).toNat =
      (vs.indexOf cur + 1) % vs.length := by
    have h1 : ((vs.indexOf cur : Int) + 1) = ((vs.indexOf cur + 1 : Nat) : Int) := by
      push_cast
      ring
    rw [h1, ← Int.ofNat_emod, Int.toNat_ofNat]
  rw [hcast]
  rw [List.getElem?_eq_getElem (Nat.mod_lt _ hpos)]

theorem cycVal_not_mem {vs : List String} {v : String} (hnm : v ∉ vs) (hne : vs ≠ []) :
    vs[0]? = some (cycVal vs v) := by
  unfold cycVal
  rw [jsIndexOf_of_not_mem hnm]
  have hpos : 0 < vs.length := List.length_pos.mpr hne
  have hz : ((-1 + 1 : Int) % (vs.length : Int)).toNat = 0 := by
    norm_num
  rw [hz]
  rw [List.getElem?_eq_getElem hpos]

theorem cycVal_getElem {vs : List String} (hnd : vs.Nodup) {i : Nat} (hi : i < vs.length) :
    cycVal vs (vs.get ⟨i, hi⟩) =
      vs.get ⟨(i + 1) % vs.length, Nat.mod_lt _ (by omega)⟩ := by
  unfold cycVal
  have hig : vs.get ⟨i, hi⟩ = vs[i] := rfl
  rw [hig, jsIndexOf_getElem hnd hi]
  have hcast : (((i : Int) + 1) % (vs.length : Int)).toNat = (i + 1) % vs.length := by
    have h1 : ((i : Int) + 1) = ((i + 1 : Nat) : Int) := by
      push_cast
      ring
    rw [h1, ← Int.ofNat_emod, Int.toNat_ofNat]
  rw [hcast]
  rw [List.getElem?_eq_getElem (Nat.mod_lt _ (by omega))]
  simp

theorem cycVal_iterate {vs : List String} (hnd : vs.Nodup) :
    ∀ (k : Nat) (i : Nat) (hi : i < vs.length),
      (cycVal vs)^[k] (vs.get ⟨i, hi⟩) =
        vs.get ⟨(i + k) % vs.length, Nat.mod_lt _ (by omega)⟩ := by
  intro k
  induction k with
  | zero =>
    intro i hi
    simp [Nat.mod_eq_of_lt hi]
  | succ k2 ih =>
    intro i hi
    rw [Function.iterate_succ_apply, cycVal_getElem hnd hi,
      ih ((i + 1) % vs.length) (Nat.mod_lt _ (by omega))]
    refine congrArg vs.get (Fin.ext ?_)
    show ((i + 1) % vs.length + k2) % vs.length = (i + (k2 + 1)) % vs.length
    rw [Nat.mod_add_mod]
    exact congrArg (fun n => n % vs.length) (by omega)

theorem cycVal_closure {vs : List String} (hnd : vs.Nodup) {v : String} (hm : v ∈ vs) :
    (cycVal vs)^[vs.length] v = v := by
  have hlt : vs.indexOf v < vs.length := List.indexOf_lt_length.mpr hm
  obtain ⟨i, hi, hveq⟩ : ∃ i, ∃ h : i < vs.length, vs.get ⟨i, h⟩ = v :=
    ⟨vs.indexOf v, hlt, List.indexOf_get hlt⟩
  subst hveq
  rw [cycVal_iterate hnd vs.length i hi]
  refine congrArg vs.get (Fin.ext ?_)
  show (i + vs.length) % vs.length = i
  rw [Nat.add_mod_right]
  exact Nat.mod_eq_of_lt hi

theorem cycle_run {vs : List String} (k : Nat) :
    ∀ (s : SLState) (j : Nat) (item : SettingItem),
      s.mode = .browsing →
      s.displayIdxs[s.selectedIndex]? = some j →
      s.items[j]? = some item →
      item.submenu = none →
      item.values = some vs →
      vs ≠ [] →
      ∃ ev, s.run (List.replicate k Token.enter) =
        { s with
          items := s.items.set j
            { item with currentValue := (cycVal vs)^[k] item.currentValue }
          events := ev } := by
  induction k with
  | zero =>
    intro s j item hm hd hi hsub hv hne
    refine ⟨s.events, ?_⟩
    show s = _
    rw [Function.iterate_zero_apply]
    rw [show ({ item with currentValue := item.currentValue } : SettingItem) = item from rfl]
    rw [set_of_getElem? hi]
  | succ k2 ih =>
    intro s j item hm hd hi hsub hv hne
    rw [show List.replicate (k2 + 1) Token.enter =
      Token.enter :: List.replicate k2 Token.enter from rfl]
    rw [show s.run (Token.enter :: List.replicate k2 Token.enter) =
      (s.handleInput Token.enter).run (List.replicate k2 Token.enter) from rfl]
    rw [handleInput_browsing_activate hm (Or.inl rfl), activateItem_cycle hd hi hsub hv hne]
    have hjlt : j < s.items.length := (List.getElem?_eq_some.mp hi).1
    obtain ⟨ev, he⟩ := ih
      { s with
        items := s.items.set j { item with currentValue := cycVal vs item.currentValue }
        events := s.events ++ [SLEvent.change item.id (cycVal vs item.currentValue)] }
      j { item with currentValue := cycVal vs item.currentValue }
      hm (by rw [displayIdxs_update]; exact hd)
      (by simpa using List.getElem?_set_eq_of_lt _ hjlt)
      hsub hv hne
    refine ⟨ev, ?_⟩
    rw [he]
    simp only [List.set_set]
    rw [show ((cycVal vs)^[k2] (cycVal vs item.currentValue)) =
      (cycVal vs)^[k2 + 1] item.currentValue from (Function.iterate_succ_apply _ _ _).symm]

theorem SLState.run_append (s : SLState) (ts : List Token) (t : Token) :
    s.run (ts ++ [t]) = (s.run ts).handleInput t := by
  simp [SLState.run, List.foldl_append]

/-! ## Claim C1 — header rows and activation -/

/-- C1 (evaluation at the failing input): activating (`selectConfirm` or
the literal space) a selected header row — a `SettingItem` with the
reserved `__header__` id marker, empty `values`, no `submenu` — makes
`SettingsList.activateItem` fall into its free-text branch: the widget
transitions to `Editing` with an inline editor seeded from the header's
`currentValue`, so the widget does treat a header row as editable; only
the extension-level `onChange` handler later refuses to persist a header
id. -/
theorem c1_header_activation_starts_editing :
    ((((SLState.init [SettingItem.mk "__header__demo" "demo" none "" none none]
        3 false).handleInput .enter).mode) = .editing 0 ⟨""⟩) ∧
    ((((SLState.init [SettingItem.mk "__header__demo" "demo" none "" none none]
        3 false).handleInput .space).mode) = .editing 0 ⟨""⟩) ∧
    ((((SLState.init [SettingItem.mk "__header__demo" "demo" none "" none none]
        3 false).run [.enter, .text "x", .enter]).events) =
          [.change "__header__demo" "x"]) ∧
    extOnChange "__header__demo" "x" = none := by decide

/-! ## Claim C2 — cycle closure -/

/-- C2 (counterexample): cycle closure fails as stated. With
`values = ["a","a","b"]` (duplicates) and `currentValue = "b"`, three
activations land on `"a"`, not back on `"b"`; with `values = ["v"]` and a
`currentValue` `"w"` that does not occur in `values`, one activation
lands on `"v"`, not back on `"w"`. -/
theorem c2_cycle_closure_cex :
    ((((SLState.init [SettingItem.mk "x" "X" none "b" (some ["a", "a", "b"]) none]
        3 false).run
        [.enter, .enter, .enter]).items.map (fun it => it.currentValue)) ≠ ["b"]) ∧
    ((((SLState.init [SettingItem.mk "y" "Y" none "w" (some ["v"]) none]
        3 false).run
        [.enter]).items.map (fun it => it.currentValue)) ≠ ["w"]) := by decide

/-! ## Claim C4 — cursor range invariant -/

/-- C4 (counterexample): with an unknown id in the seed, `moveUp` can
push `cursorIndex` to `-1`, outside `[0, displayedCount)`. Options
`[a]`, seed `"u,a"`: the displayed sequence is the single known item
`a`; `shift+up` swaps `"u"` and `"a"` inside `selected` and decrements
the cursor to `-1`. -/
theorem c4_cursor_range_cex :
    ((OMSState.init [⟨"a", "A"⟩] "u,a").buildDisplayItems.length = 1) ∧
    (((OMSState.init [⟨"a", "A"⟩] "u,a").handleInput .shiftUp).cursorIndex = -1) ∧
    ¬ (0 ≤ ((OMSState.init [⟨"a", "A"⟩] "u,a").handleInput .shiftUp).cursorIndex) := by
  decide

/-! ## Claim C6 — toggle invariants -/

/-- C6 (counterexample): the invariant fails as stated, because the seed
also populates `selected`. Seeding with `"a"` and performing no toggle
operations leaves `selected = ["a"]`, which is not a subset of the (empty)
set of ids actually toggled on; seeding with `"a,a"` even makes
`selected` contain a duplicate with no toggles performed. -/
theorem c6_toggle_invariant_cex :
    ((OMSState.init [⟨"a", "A"⟩] "a").runToggles []).2 = [] ∧
    ((OMSState.init [⟨"a", "A"⟩] "a").runToggles []).1.selected = ["a"] ∧
    ¬ (∀ x ∈ ((OMSState.init [⟨"a", "A"⟩] "a").runToggles []).1.selected,
        x ∈ ((OMSState.init [⟨"a", "A"⟩] "a").runToggles []).2) ∧
    ¬ (OMSState.init [⟨"a", "A"⟩] "a,a").selected.Nodup := by decide

/-! ## Claim C7 — reorder invertibility -/

/-- C7 (counterexample): with an unknown id in the seed, reorder-up then
reorder-down does not restore the original order, and the cursor does not
follow the moved item. Options `[a, b]`, seed `"a,u,b"`, cursor on the
displayed item `b` (display index 1, reached by one `selectDown`):
`shift+up` swaps `"u"`/`"b"` in `selected` but moves the cursor onto `a`;
the following `shift+down` then moves `a`, yielding `["b","a","u"]`. -/
theorem c7_reorder_invertibility_cex :
    ((OMSState.init [⟨"a", "A"⟩, ⟨"b", "B"⟩] "a,u,b").handleInput .down =
      { options := [⟨"a", "A"⟩, ⟨"b", "B"⟩], selected := ["a", "u", "b"],
        cursorIndex := 1, events := [] }) ∧
    (((OMSState.init [⟨"a", "A"⟩, ⟨"b", "B"⟩] "a,u,b").run
        [.down, .shiftUp]).cursorIndex = 0) ∧
    ((jsGet ((OMSState.init [⟨"a", "A"⟩, ⟨"b", "B"⟩] "a,u,b").run
        [.down, .shiftUp]).buildDisplayItems 0).map (fun it => it.option.id) =
      some "a") ∧
    (((OMSState.init [⟨"a", "A"⟩, ⟨"b", "B"⟩] "a,u,b").run
        [.down, .shiftUp, .shiftDown]).selected = ["b", "a", "u"]) ∧
    (["b", "a", "u"] ≠ ["a", "u", "b"]) := by decide

/-! ## Claim C10 — empty display -/

/-- C10 (counterexample): an all-unknown seed with a non-empty options
list does not make the displayed sequence empty, confirm stays reachable,
and it commits the unknown seeded value. Options `[a]`, seed `"u"`:
the display holds the unselected `a`, and `selectConfirm` invokes `done`
with the seeded `"u"`. -/
theorem c10_unknown_seed_commit_cex :
    ((OMSState.init [⟨"a", "A"⟩] "u").buildDisplayItems.length = 1) ∧
    (((OMSState.init [⟨"a", "A"⟩] "u").handleInput .enter).events =
      [.done (some "u")]) := by decide


/-- C2 (amended): cycle closure holds for every cycling item whose
`values` list has no duplicates and contains the item's `currentValue`:
performing the activation exactly `values.length` times from Browsing
reproduces the original `items` (in particular the original
`currentValue`) and leaves the widget Browsing with the selection
unmoved. -/
theorem c2_cycle_closure_amended :
    ∀ (s : SLState) (j : Nat) (item : SettingItem) (vs : List String),
      s.mode = .browsing →
      s.displayIdxs[s.selectedIndex]? = some j →
      s.items[j]? = some item →
      item.submenu = none →
      item.values = some vs →
      vs ≠ [] →
      vs.Nodup →
      item.currentValue ∈ vs →
      (s.run (List.replicate vs.length Token.enter)).items = s.items ∧
      (s.run (List.replicate vs.length Token.enter)).mode = .browsing ∧
      (s.run (List.replicate vs.length Token.enter)).selectedIndex = s.selectedIndex := by
  intro s j item vs hm hd hi hsub hv hne hnd hmem
  obtain ⟨ev, he⟩ := cycle_run vs.length s j item hm hd hi hsub hv hne
  rw [he]
  refine ⟨?_, hm, rfl⟩
  rw [cycVal_closure hnd hmem]
  rw [show ({ item with currentValue := item.currentValue } : SettingItem) = item from rfl]
  exact set_of_getElem? hi

/-- Witness for `c2_cycle_closure_amended` at the spec's timeout
example: three activations starting from `"30"` over
`["10","30","60"]` restore the items. -/
theorem c2_cycle_closure_amended_witness :
    ((SLState.init [SettingItem.mk "timeout" "Timeout" none "30"
        (some ["10", "30", "60"]) none] 3 false).run
      (List.replicate 3 Token.enter)).items =
      (SLState.init [SettingItem.mk "timeout" "Timeout" none "30"
        (some ["10", "30", "60"]) none] 3 false).items :=
  (c2_cycle_closure_amended
    (SLState.init [SettingItem.mk "timeout" "Timeout" none "30"
      (some ["10", "30", "60"]) none] 3 false)
    0 (SettingItem.mk "timeout" "Timeout" none "30" (some ["10", "30", "60"]) none)
    ["10", "30", "60"] rfl (by decide) (by decide) rfl rfl (by decide) (by decide)
    (by decide)).1

/-! ## Claim C3 — cycling formula -/

/-- C3: activating a cycling item (non-empty `values`, no submenu) from
Browsing sets `currentValue` to `values[(indexOf(currentValue) + 1) mod
length]` (element 0 when `currentValue` is not found), invokes the change
callback with `(id, newValue)`, stays Browsing, and the space character
activates identically; concretely, for values `["10","30","60"]` and
`currentValue "30"` one activation yields `"60"` with callback
`("timeout","60")` and the next wraps to `"10"`. -/
theorem c3_cycle_activation :
    (∀ (s : SLState) (j : Nat) (item : SettingItem) (vs : List String),
      s.mode = .browsing →
      s.displayIdxs[s.selectedIndex]? = some j →
      s.items[j]? = some item →
      item.submenu = none →
      item.values = some vs →
      vs ≠ [] →
      s.handleInput Token.enter =
        { s with
          items := s.items.set j { item with currentValue := cycVal vs item.currentValue }
          events := s.events ++ [SLEvent.change item.id (cycVal vs item.currentValue)] } ∧
      (s.handleInput Token.enter).mode = .browsing ∧
      s.handleInput Token.space = s.handleInput Token.enter) ∧
    (∀ (vs : List String) (cur : String), cur ∈ vs →
      vs[(vs.indexOf cur + 1) % vs.length]? = some (cycVal vs cur)) ∧
    (∀ (vs : List String) (cur : String), cur ∉ vs → vs ≠ [] →
      vs[0]? = some (cycVal vs cur)) ∧
    (((SLState.init [SettingItem.mk "timeout" "Timeout" none "30"
          (some ["10", "30", "60"]) none] 3 false).run [Token.enter]).items.map
        (fun it => it.currentValue) = ["60"] ∧
      ((SLState.init [SettingItem.mk "timeout" "Timeout" none "30"
          (some ["10", "30", "60"]) none] 3 false).run [Token.enter]).events =
        [SLEvent.change "timeout" "60"] ∧
      ((SLState.init [SettingItem.mk "timeout" "Timeout" none "30"
          (some ["10", "30", "60"]) none] 3 false).run [Token.enter, Token.enter]).items.map
        (fun it => it.currentValue) = ["10"] ∧
      ((SLState.init [SettingItem.mk "timeout" "Timeout" none "30"
          (some ["10", "30", "60"]) none] 3 false).run [Token.enter, Token.enter]).events =
        [SLEvent.change "timeout" "60", SLEvent.change "timeout" "10"]) := by
  refine ⟨?_, fun vs cur hm => cycVal_indexOf hm,
    fun vs cur h1 h2 => cycVal_not_mem h1 h2, by decide⟩
  intro s j item vs hm hd hi hsub hv hne
  have heq := (handleInput_browsing_activate hm (Or.inl rfl)).trans
    (activateItem_cycle hd hi hsub hv hne)
  refine ⟨heq, ?_, ?_⟩
  · rw [heq]
    exact hm
  · rw [handleInput_browsing_activate hm (Or.inr rfl),
      handleInput_browsing_activate hm (Or.inl rfl)]

/-- Witness for `c3_cycle_activation`: the general step applied at the
timeout example, plus the index formulas at concrete lists. -/
theorem c3_cycle_activation_witness :
    ((SLState.init [SettingItem.mk "timeout" "Timeout" none "30"
        (some ["10", "30", "60"]) none] 3 false).handleInput Token.enter).mode =
      .browsing ∧
    (["10", "30", "60"] :
        List String)[((["10", "30", "60"] : List String).indexOf "30" + 1) %
        (["10", "30", "60"] : List String).length]? =
      some (cycVal ["10", "30", "60"] "30") ∧
    (["10", "30", "60"] : List String)[0]? = some (cycVal ["10", "30", "60"] "junk") :=
  ⟨(c3_cycle_activation.1
      (SLState.init [SettingItem.mk "timeout" "Timeout" none "30"
        (some ["10", "30", "60"]) none] 3 false)
      0 (SettingItem.mk "timeout" "Timeout" none "30" (some ["10", "30", "60"]) none)
      ["10", "30", "60"] rfl (by decide) (by decide) rfl rfl (by decide)).2.1,
    c3_cycle_activation.2.1 _ "30" (by decide),
    c3_cycle_activation.2.2.1 _ "junk" (by decide) (by decide)⟩

/-- C4 (amended): provided the seeded ids are duplicate-free and all
name existing options (a well-formed comma-join of distinct option ids),
`cursorIndex` stays within `[0, displayedCount)` after every input, for a
non-empty options list; and navigation is a no-op when the displayed
sequence is empty. -/
theorem c4_cursor_range_amended :
    (∀ (opts : List OrderedListOption) (cv : String) (ts : List Token),
      (opts.map (fun o => o.id)).Nodup →
      (parseSelected cv).Nodup →
      (∀ x ∈ parseSelected cv, x ∈ opts.map (fun o => o.id)) →
      opts ≠ [] →
      0 ≤ ((OMSState.init opts cv).run ts).cursorIndex ∧
        ((OMSState.init opts cv).run ts).cursorIndex <
          (((OMSState.init opts cv).run ts).buildDisplayItems.length : Int)) ∧
    (∀ s : OMSState, s.buildDisplayItems.length = 0 →
      s.handleInput Token.up = s ∧ s.handleInput Token.down = s) := by
  constructor
  · intro opts cv ts hids hnd hsub hne
    have hpos : 0 < opts.length := List.length_pos.mpr hne
    obtain ⟨⟨h1, h2, h3⟩, h4, h5⟩ :=
      run_good (s := OMSState.init opts cv) ts hids hnd hsub (by exact le_refl 0)
        (by show (0 : Int) < ((opts.length : Nat) : Int); exact_mod_cast hpos)
    refine ⟨h4, ?_⟩
    rw [display_length_eq h1 h2 h3]
    exact h5
  · intro s h
    exact ⟨empty_noop h (by simp), empty_noop h (by simp)⟩

/-- Witness for `c4_cursor_range_amended` at a concrete well-formed
seed and input sequence, and at a concrete empty widget. -/
theorem c4_cursor_range_amended_witness :
    (0 ≤ ((OMSState.init [⟨"a", "A"⟩, ⟨"b", "B"⟩] "b").run
        [Token.space, Token.shiftUp, Token.down]).cursorIndex ∧
      ((OMSState.init [⟨"a", "A"⟩, ⟨"b", "B"⟩] "b").run
        [Token.space, Token.shiftUp, Token.down]).cursorIndex <
        ((((OMSState.init [⟨"a", "A"⟩, ⟨"b", "B"⟩] "b").run
          [Token.space, Token.shiftUp, Token.down]).buildDisplayItems.length : Int))) ∧
    ((OMSState.init [] "x").handleInput Token.up = OMSState.init [] "x" ∧
      (OMSState.init [] "x").handleInput Token.down = OMSState.init [] "x") :=
  ⟨c4_cursor_range_amended.1 [⟨"a", "A"⟩, ⟨"b", "B"⟩] "b"
      [Token.space, Token.shiftUp, Token.down]
      (by decide) (by decide) (by decide) (by decide),
    c4_cursor_range_amended.2 (OMSState.init [] "x") (by decide)⟩

/-- C7 (amended): provided `selected` is duplicate-free and every
selected id names an existing option (true for well-formed seeds, and
preserved by the widget), reorder-up then reorder-down — or
reorder-down then reorder-up — on a selected item restores the state
exactly, the cursor following the moved item (one display row up,
respectively down); reorder is a no-op at the respective boundary of the
selected group and on an unselected item. -/
theorem c7_reorder_invertibility_amended :
    (∀ (s : OMSState) (c : Nat),
      (s.options.map (fun o => o.id)).Nodup →
      s.selected.Nodup →
      (∀ x ∈ s.selected, x ∈ s.options.map (fun o => o.id)) →
      s.cursorIndex = (c : Int) →
      c < s.selected.length →
      ((0 < c → s.run [Token.shiftUp, Token.shiftDown] = s ∧
          (s.handleInput Token.shiftUp).cursorIndex = (c : Int) - 1) ∧
       (c + 1 < s.selected.length → s.run [Token.shiftDown, Token.shiftUp] = s ∧
          (s.handleInput Token.shiftDown).cursorIndex = (c : Int) + 1) ∧
       (c = 0 → s.handleInput Token.shiftUp = s) ∧
       (c + 1 = s.selected.length → s.handleInput Token.shiftDown = s))) ∧
    (∀ (s : OMSState) (it : DisplayItem),
      jsGet s.buildDisplayItems s.cursorIndex = some it →
      it.selected = false →
      s.handleInput Token.shiftUp = s ∧ s.handleInput Token.shiftDown = s) := by
  constructor
  · intro s c hids hsel hsub hc hcl
    refine ⟨?_, ?_, ?_, ?_⟩
    · intro hpos
      obtain ⟨i, rfl⟩ : ∃ i, c = i + 1 := ⟨c - 1, by omega⟩
      have h1 := moveUp_step hids hsel hsub hc hcl hpos
      simp only [Nat.add_sub_cancel] at h1
      have ha : s.selected[i]? = some s.selected[i] :=
        List.getElem?_eq_getElem (by omega)
      have hb : s.selected[i + 1]? = some s.selected[i + 1] :=
        List.getElem?_eq_getElem hcl
      have hperm := listSwap_perm ha hb
      have hsel1 : (listSwap s.selected i (i + 1)).Nodup := hperm.symm.nodup hsel
      have hsub1 : ∀ x ∈ listSwap s.selected i (i + 1),
          x ∈ s.options.map (fun o => o.id) :=
        fun x hx => hsub x (hperm.mem_iff.mp hx)
      have hlen1 : (listSwap s.selected i (i + 1)).length = s.selected.length :=
        hperm.length_eq
      refine ⟨?_, by rw [h1]⟩
      rw [show s.run [Token.shiftUp, Token.shiftDown] =
        (s.handleInput Token.shiftUp).handleInput Token.shiftDown from rfl]
      rw [h1]
      have h2 := moveDown_step
        (s :=
          { s with
            selected := listSwap s.selected i (i + 1)
            cursorIndex := ((i : Int) + 1) - 1 })
        (c := i) hids hsel1 hsub1 (by push_cast; ring) (by rw [hlen1]; exact hcl)
      rw [show ((((i + 1) : Nat) : Int) - 1) = (((i : Int) + 1) - 1) by push_cast; ring]
      rw [h2]
      rw [show (listSwap (listSwap s.selected i (i + 1)) i (i + 1)) = s.selected from
        listSwap_swap ha hb]
      rw [show ((i : Int) + 1) = (((i + 1 : Nat)) : Int) by push_cast; ring, ← hc]
    · intro hlt2
      have h1 := moveDown_step hids hsel hsub hc hlt2
      have ha : s.selected[c]? = some s.selected[c] :=
        List.getElem?_eq_getElem (by omega)
      have hb : s.selected[c + 1]? = some s.selected[c + 1] :=
        List.getElem?_eq_getElem hlt2
      have hperm := listSwap_perm ha hb
      have hsel1 : (listSwap s.selected c (c + 1)).Nodup := hperm.symm.nodup hsel
      have hsub1 : ∀ x ∈ listSwap s.selected c (c + 1),
          x ∈ s.options.map (fun o => o.id) :=
        fun x hx => hsub x (hperm.mem_iff.mp hx)
      have hlen1 : (listSwap s.selected c (c + 1)).length = s.selected.length :=
        hperm.length_eq
      refine ⟨?_, by rw [h1]⟩
      rw [show s.run [Token.shiftDown, Token.shiftUp] =
        (s.handleInput Token.shiftDown).handleInput Token.shiftUp from rfl]
      rw [h1]
      have h2 := moveUp_step
        (s :=
          { s with
            selected := listSwap s.selected c (c + 1)
            cursorIndex := (c : Int) + 1 })
        (c := c + 1) hids hsel1 hsub1 (by push_cast; ring)
        (by rw [hlen1]; exact hlt2) (by omega)
      rw [h2]
      simp only [Nat.add_sub_cancel]
      rw [show (listSwap (listSwap s.selected c (c + 1)) c (c + 1)) = s.selected from
        listSwap_swap ha hb]
      rw [show ((((c + 1) : Nat) : Int) - 1) = ((c : Nat) : Int) by push_cast; ring, ← hc]
    · intro hzero
      subst hzero
      exact moveUp_boundary hids hsel hsub (by rw [hc]; rfl) hcl
    · intro hlast
      exact moveDown_boundary hids hsel hsub hc hcl hlast
  · intro s it hget hsel
    exact move_unselected_noop hget hsel

/-- Witness for `c7_reorder_invertibility_amended`: a concrete
two-element selection with the cursor on the second selected row;
up-then-down restores the state, and reorder on an unselected row is a
no-op. -/
theorem c7_reorder_invertibility_amended_witness :
    (({ options := [⟨"a", "A"⟩, ⟨"b", "B"⟩], selected := ["a", "b"],
        cursorIndex := 1, events := [] } : OMSState).run
      [Token.shiftUp, Token.shiftDown] =
      { options := [⟨"a", "A"⟩, ⟨"b", "B"⟩], selected := ["a", "b"],
        cursorIndex := 1, events := [] }) ∧
    (({ options := [⟨"a", "A"⟩, ⟨"b", "B"⟩], selected := ["a"],
        cursorIndex := 1, events := [] } : OMSState).handleInput Token.shiftUp =
      { options := [⟨"a", "A"⟩, ⟨"b", "B"⟩], selected := ["a"],
        cursorIndex := 1, events := [] }) :=
  ⟨((c7_reorder_invertibility_amended.1
      { options := [⟨"a", "A"⟩, ⟨"b", "B"⟩], selected := ["a", "b"],
        cursorIndex := 1, events := [] }
      1 (by decide) (by decide) (by decide) (by decide) (by decide)).1 (by decide)).1,
    (c7_reorder_invertibility_amended.2
      { options := [⟨"a", "A"⟩, ⟨"b", "B"⟩], selected := ["a"],
        cursorIndex := 1, events := [] }
      ⟨⟨"b", "B"⟩, false, 0⟩ (by decide) (by decide)).1⟩

/-! ## Claim C8 — escape discards edits -/

/-- C8: from Browsing, activating a free-text item (no submenu, empty
`values`) enters Editing; any sequence of non-enter/non-escape tokens is
absorbed by the inline editor, and `escape` then restores the exact
original state: the item's `currentValue` is unchanged from when editing
began, the widget is Browsing again, and no change callback was
invoked. -/
theorem c8_escape_discards_edit :
    ∀ (s : SLState) (j : Nat) (item : SettingItem) (t0 : Token) (ts : List Token),
      s.mode = .browsing →
      s.displayIdxs[s.selectedIndex]? = some j →
      s.items[j]? = some item →
      item.submenu = none →
      item.values.getD [] = [] →
      (t0 = Token.enter ∨ t0 = Token.space) →
      (∀ t ∈ ts, t ≠ Token.enter ∧ t ≠ Token.escape) →
      s.run (t0 :: (ts ++ [Token.escape])) = s := by
  intro s j item t0 ts hm hd hi hsub hv ht0 hts
  rw [show s.run (t0 :: (ts ++ [Token.escape])) =
    (s.handleInput t0).run (ts ++ [Token.escape]) from rfl]
  rw [handleInput_browsing_activate hm ht0, activateItem_freetext hd hi hsub hv]
  rw [SLState.run_append]
  obtain ⟨buf2, hb⟩ := editing_run hts
    { s with mode := .editing s.selectedIndex ⟨item.currentValue⟩ }
    s.selectedIndex ⟨item.currentValue⟩ rfl
  rw [hb, editing_escape rfl]
  exact mode_eta hm

/-- Witness for `c8_escape_discards_edit`: type `"hello"` into a
free-text item and press escape; the widget state is exactly the
original. -/
theorem c8_escape_discards_edit_witness :
    (SLState.init [SettingItem.mk "projectName" "Project Name" none "" none none]
      3 false).run (Token.enter :: ([Token.text "hello"] ++ [Token.escape])) =
      SLState.init [SettingItem.mk "projectName" "Project Name" none "" none none]
        3 false :=
  c8_escape_discards_edit
    (SLState.init [SettingItem.mk "projectName" "Project Name" none "" none none]
      3 false)
    0 (SettingItem.mk "projectName" "Project Name" none "" none none)
    Token.enter [Token.text "hello"] rfl (by decide) (by decide) rfl rfl
    (Or.inl rfl) (by decide)

/-! ## Supporting lemmas for the remaining claims -/

theorem buildSel_options_nil : ∀ (sel : List String) (i : Nat),
    buildSelectedItems [] sel i = [] := by
  intro sel
  induction sel with
  | nil => intro i; rfl
  | cons a rest ih => intro i; simpa [buildSelectedItems] using ih (i + 1)

theorem display_nil_of_options_nil {s : OMSState} (h : s.options = []) :
    s.buildDisplayItems = [] := by
  unfold OMSState.buildDisplayItems
  rw [h, buildSel_options_nil]
  rfl

theorem display_length_ne_zero {s : OMSState} (h : s.options ≠ []) :
    s.buildDisplayItems.length ≠ 0 := by
  intro hz
  have hnil : s.buildDisplayItems = [] := List.length_eq_zero.mp hz
  unfold OMSState.buildDisplayItems at hnil
  obtain ⟨h1, h2⟩ := List.append_eq_nil.mp hnil
  cases hopt : s.options with
  | nil => exact h hopt
  | cons o rest =>
    have h2f : s.options.filter (fun o2 => !(s.selected.contains o2.id)) = [] :=
      List.map_eq_nil_iff.mp h2
    have hcont : o.id ∈ s.selected := by
      have := List.filter_eq_nil_iff.mp h2f o (by rw [hopt]; exact List.mem_cons_self o rest)
      simpa using this
    have hfind := buildSel_eq_nil _ _ h1 o.id hcont
    rw [hopt] at hfind
    rw [List.find?_cons_of_pos _ (by simp)] at hfind
    cases hfind

theorem run_count_unknown : ∀ (ts : List Token) (s : OMSState) (x : String),
    x ∉ s.options.map (fun o => o.id) →
    (s.run ts).selected.count x = s.selected.count x := by
  intro ts
  induction ts with
  | nil => intro s x hx; rfl
  | cons t rest ih =>
    intro s x hx
    rw [show s.run (t :: rest) = (s.handleInput t).run rest from rfl]
    rw [ih _ x (by rw [handleInput_options]; exact hx)]
    exact handleInput_count_unknown t hx

theorem run_nodup : ∀ (ts : List Token) (s : OMSState),
    s.selected.Nodup → (s.run ts).selected.Nodup := by
  intro ts
  induction ts with
  | nil => intro s h; exact h
  | cons t rest ih =>
    intro s h
    exact ih _ (handleInput_nodup t h)

theorem runToggles_fst : ∀ (ts : List Token) (s : OMSState),
    (s.runToggles ts).1 = s.run ts := by
  intro ts
  induction ts with
  | nil => intro s; rfl
  | cons t rest ih => intro s; exact ih (s.handleInput t)

theorem runToggles_mem : ∀ (ts : List Token) (s : OMSState) (x : String),
    x ∈ ((s.runToggles ts).1).selected →
    x ∈ s.selected ∨ x ∈ (s.runToggles ts).2 := by
  intro ts
  induction ts with
  | nil => intro s x hx; exact Or.inl hx
  | cons t rest ih =>
    intro s x hx
    rcases ih (s.handleInput t) x hx with h | h
    · rcases handleInput_mem_selected h with h2 | h2
      · exact Or.inl h2
      · exact Or.inr (List.mem_append_left _ h2)
    · exact Or.inr (List.mem_append_right _ h)

theorem runToggles_snd_sub : ∀ (ts : List Token) (s : OMSState) (x : String),
    x ∈ (s.runToggles ts).2 → x ∈ s.options.map (fun o => o.id) := by
  intro ts
  induction ts with
  | nil => intro s x hx; cases hx
  | cons t rest ih =>
    intro s x hx
    rcases List.mem_append.mp hx with h | h
    · exact toggledIds_sub h
    · have := ih (s.handleInput t) x h
      rwa [handleInput_options] at this

theorem updateValue_unknown {s : SLState} {id v : String}
    (h : ∀ it ∈ s.items, it.id ≠ id) : s.updateValue id v = s := by
  unfold SLState.updateValue
  cases hf : s.items.findIdx? (fun it => it.id == id) with
  | none => rfl
  | some j =>
    exfalso
    have hlt := List.findIdx?_eq_some_iff_findIdx_eq.mp hf
    have hj : s.items.findIdx (fun it => it.id == id) < s.items.length := by
      rw [hlt.2]
      exact hlt.1
    have hp := List.findIdx_getElem (w := hj)
    exact h _ (List.getElem_mem hj) (by simpa using hp)

theorem sl_text_noop_nosearch {s : SLState} {str : String}
    (hm : s.mode = .browsing) (hs : s.searchEnabled = false) :
    s.handleInput (.text str) = s := by
  simp only [SLState.handleInput, hm, hs]
  rfl

theorem sl_text_noop_spaces {s : SLState} {str : String}
    (hm : s.mode = .browsing) (hq : stripSpaces str = "") :
    s.handleInput (.text str) = s := by
  simp only [SLState.handleInput, hm, hq]
  by_cases hs : s.searchEnabled
  · simp [hs]
  · simp [hs]

theorem sl_nav_empty {s : SLState} (hm : s.mode = .browsing)
    (hd : s.displayIdxs = []) :
    s.handleInput Token.up = s ∧ s.handleInput Token.down = s := by
  constructor <;>
    · simp only [SLState.handleInput, hm, hd]
      rfl

theorem run_empty_options : ∀ (ts : List Token) (s : OMSState), s.options = [] →
    (s.run ts).selected = s.selected ∧
      (∀ e ∈ (s.run ts).events, e ∈ s.events ∨ e = OMSEvent.done none) := by
  intro ts
  induction ts with
  | nil => intro s h; exact ⟨rfl, fun e he => Or.inl he⟩
  | cons t rest ih =>
    intro s h
    rw [show s.run (t :: rest) = (s.handleInput t).run rest from rfl]
    by_cases ht : t = Token.escape
    · subst ht
      rw [escape_step]
      obtain ⟨ih1, ih2⟩ := ih { s with events := s.events ++ [OMSEvent.done none] } h
      refine ⟨ih1, fun e he => ?_⟩
      rcases ih2 e he with h1 | h1
      · rcases List.mem_append.mp h1 with h2 | h2
        · exact Or.inl h2
        · exact Or.inr (by simpa using h2)
      · exact Or.inr h1
    · rw [empty_noop (by rw [display_nil_of_options_nil h]; rfl) ht]
      exact ih s h

/-! ## Claim C5 — seeding, unknown-id pass-through, confirm output -/

/-- C5: the widget seeds `selected` by splitting the incoming value on
commas, trimming and dropping empty tokens; ids not naming any option are
never touched by any input (their multiplicity in `selected` is
invariant under every run), so they pass through to the comma-joined
confirm output; confirm (on a non-empty options list) signals completion
with `selected` joined by commas, the empty string when nothing is
selected. -/
theorem c5_seed_unknown_confirm :
    (parseSelected "alpha, beta ,,gamma " = ["alpha", "beta", "gamma"] ∧
      parseSelected "" = [] ∧
      ∀ (opts : List OrderedListOption) (cv : String),
        (OMSState.init opts cv).selected = parseSelected cv) ∧
    (∀ (opts : List OrderedListOption) (cv : String) (ts : List Token) (x : String),
      x ∉ opts.map (fun o => o.id) →
      ((OMSState.init opts cv).run ts).selected.count x = (parseSelected cv).count x) ∧
    (∀ s : OMSState, s.options ≠ [] →
      s.handleInput Token.enter =
        { s with events := s.events ++
            [OMSEvent.done (some (String.intercalate "," s.selected))] }) ∧
    (∀ opts : List OrderedListOption, opts ≠ [] →
      ((OMSState.init opts "").handleInput Token.enter).events =
        [OMSEvent.done (some "")]) := by
  refine ⟨⟨by decide, by decide, fun opts cv => rfl⟩, ?_, ?_, ?_⟩
  · intro opts cv ts x hx
    exact run_count_unknown ts (OMSState.init opts cv) x hx
  · intro s h
    exact enter_step (display_length_ne_zero h)
  · intro opts h
    rw [enter_step (display_length_ne_zero (s := OMSState.init opts "") h)]
    rfl

/-- Witness for `c5_seed_unknown_confirm`: unknown seeded id `"u"`
survives a toggle and confirm emits the empty string on an empty
selection. -/
theorem c5_seed_unknown_confirm_witness :
    (((OMSState.init [⟨"a", "A"⟩] "u,a").run [Token.space]).selected.count "u" =
      (parseSelected "u,a").count "u") ∧
    ((OMSState.init [⟨"a", "A"⟩] "").handleInput Token.enter).events =
      [OMSEvent.done (some "")] :=
  ⟨c5_seed_unknown_confirm.2.1 [⟨"a", "A"⟩] "u,a" [Token.space] "u" (by decide),
    c5_seed_unknown_confirm.2.2.2 [⟨"a", "A"⟩] (by decide)⟩

/-- C6 (amended): starting from an empty seed, after any input sequence
`selected` is duplicate-free and every member was actually toggled on
(and is an option id); the instrumented runner used to collect the
toggled-on ids projects exactly to the widget's own run; and a toggle
removes the id of a selected item from `selected` and appends the id of
an unselected one. -/
theorem c6_toggle_invariant_amended :
    (∀ (s : OMSState) (ts : List Token), (s.runToggles ts).1 = s.run ts) ∧
    (∀ (opts : List OrderedListOption) (ts : List Token),
      ((OMSState.init opts "").runToggles ts).1.selected.Nodup ∧
      (∀ x ∈ ((OMSState.init opts "").runToggles ts).1.selected,
        x ∈ ((OMSState.init opts "").runToggles ts).2 ∧
          x ∈ opts.map (fun o => o.id))) ∧
    (∀ (s : OMSState) (it : DisplayItem),
      s.buildDisplayItems.length ≠ 0 →
      jsGet s.buildDisplayItems s.cursorIndex = some it →
      s.handleInput Token.space =
        { s with selected :=
            if it.selected then s.selected.filter (fun x => x != it.option.id)
            else s.selected ++ [it.option.id] }) := by
  refine ⟨fun s ts => runToggles_fst ts s, ?_, fun s it _ hget => toggle_step hget⟩
  intro opts ts
  have h0 : (OMSState.init opts "").selected = [] := rfl
  constructor
  · rw [runToggles_fst]
    exact run_nodup ts _ (by rw [h0]; exact List.nodup_nil)
  · intro x hx
    have hm : x ∈ (OMSState.init opts "").selected ∨
        x ∈ ((OMSState.init opts "").runToggles ts).2 := runToggles_mem ts _ x hx
    rcases hm with h | h
    · rw [h0] at h
      cases h
    · exact ⟨h, runToggles_snd_sub ts _ x h⟩

/-- Witness for `c6_toggle_invariant_amended` at a concrete option list
and input sequence. -/
theorem c6_toggle_invariant_amended_witness :
    (((OMSState.init [⟨"a", "A"⟩] "a,b").runToggles [Token.space]).1 =
      (OMSState.init [⟨"a", "A"⟩] "a,b").run [Token.space]) ∧
    ((OMSState.init [⟨"a", "A"⟩, ⟨"b", "B"⟩] "").runToggles
      [Token.space, Token.down]).1.selected.Nodup ∧
    ((OMSState.init [⟨"a", "A"⟩, ⟨"b", "B"⟩] "").handleInput Token.space =
      { OMSState.init [⟨"a", "A"⟩, ⟨"b", "B"⟩] "" with
        selected :=
          if (false : Bool) then
            (OMSState.init [⟨"a", "A"⟩, ⟨"b", "B"⟩] "").selected.filter
              (fun x => x != "a")
          else (OMSState.init [⟨"a", "A"⟩, ⟨"b", "B"⟩] "").selected ++ ["a"] }) :=
  ⟨c6_toggle_invariant_amended.1 (OMSState.init [⟨"a", "A"⟩] "a,b") [Token.space],
    (c6_toggle_invariant_amended.2.1 [⟨"a", "A"⟩, ⟨"b", "B"⟩]
      [Token.space, Token.down]).1,
    c6_toggle_invariant_amended.2.2 (OMSState.init [⟨"a", "A"⟩, ⟨"b", "B"⟩] "")
      ⟨⟨"a", "A"⟩, false, 0⟩ (by decide) (by decide)⟩

theorem move_boundary_guard_noop {s : OMSState} {it : DisplayItem}
    (hget : jsGet s.buildDisplayItems s.cursorIndex = some it)
    (hsel : it.selected = true) :
    (jsIndexOf s.selected it.option.id ≤ 0 → s.handleInput Token.shiftUp = s) ∧
    ((jsIndexOf s.selected it.option.id < 0 ∨
      (s.selected.length : Int) - 1 ≤ jsIndexOf s.selected it.option.id) →
      s.handleInput Token.shiftDown = s) := by
  have hne : s.buildDisplayItems.length ≠ 0 := fun h => by
    rw [List.length_eq_zero.mp h] at hget
    simp [jsGet] at hget
  constructor
  · intro hidx
    simp only [OMSState.handleInput]
    rw [if_neg hne]
    simp only [OMSState.moveUp]
    simp only [hget]
    rw [if_pos hsel, if_pos hidx]
  · intro hidx
    simp only [OMSState.handleInput]
    rw [if_neg hne]
    simp only [OMSState.moveDown]
    simp only [hget]
    rw [if_pos hsel, if_pos hidx]

/-! ## Claim C9 — no-throw, no-op degradations -/

/-- C9: every operation of both widgets is modelled as a total function
(so none can raise), and each of the out-of-range or unrecognized-input
situations the code guards against degrades to a no-op: unhandled tokens
on an empty multi-select display, a cursor that resolves to no display
item, reorder on an unselected item, reorder at a boundary of the
selected group (both at the code's guard level — `idx <= 0`, resp.
`idx < 0 || idx >= length-1`, for any state — and, for states whose
selected ids are distinct known option ids, at the first and last
selected display rows), `updateValue` with an unknown id, free-character
input in the multi-select or in a search-disabled (or all-spaces,
search-enabled) settings list, navigation over an empty displayed
sequence, activation when the selection resolves to no item, and
`invalidate` on both widgets. -/
theorem c9_total_noop_degradation :
    (∀ (s : OMSState) (t : Token), s.buildDisplayItems.length = 0 →
      t ≠ Token.escape → s.handleInput t = s) ∧
    (∀ s : OMSState, jsGet s.buildDisplayItems s.cursorIndex = none →
      s.handleInput Token.space = s ∧ s.handleInput Token.shiftUp = s ∧
        s.handleInput Token.shiftDown = s) ∧
    (∀ (s : OMSState) (it : DisplayItem),
      jsGet s.buildDisplayItems s.cursorIndex = some it → it.selected = false →
      s.handleInput Token.shiftUp = s ∧ s.handleInput Token.shiftDown = s) ∧
    (∀ (s : OMSState) (it : DisplayItem),
      jsGet s.buildDisplayItems s.cursorIndex = some it → it.selected = true →
      ((jsIndexOf s.selected it.option.id ≤ 0 → s.handleInput Token.shiftUp = s) ∧
       ((jsIndexOf s.selected it.option.id < 0 ∨
          (s.selected.length : Int) - 1 ≤ jsIndexOf s.selected it.option.id) →
         s.handleInput Token.shiftDown = s))) ∧
    (∀ s : OMSState,
      (s.options.map (fun o => o.id)).Nodup →
      s.selected.Nodup →
      (∀ x ∈ s.selected, x ∈ s.options.map (fun o => o.id)) →
      ((0 < s.selected.length → s.cursorIndex = 0 →
          s.handleInput Token.shiftUp = s) ∧
       (∀ c : Nat, s.cursorIndex = (c : Int) → c + 1 = s.selected.length →
          s.handleInput Token.shiftDown = s))) ∧
    (∀ (s : SLState) (id v : String), (∀ it ∈ s.items, it.id ≠ id) →
      s.updateValue id v = s) ∧
    (∀ (s : OMSState) (str : String), s.handleInput (.text str) = s) ∧
    (∀ (s : SLState) (str : String), s.mode = .browsing → s.searchEnabled = false →
      s.handleInput (.text str) = s) ∧
    (∀ (s : SLState) (str : String), s.mode = .browsing → stripSpaces str = "" →
      s.handleInput (.text str) = s) ∧
    (∀ s : SLState, s.mode = .browsing → s.displayIdxs = [] →
      s.handleInput Token.up = s ∧ s.handleInput Token.down = s) ∧
    (∀ s : SLState, s.mode = .browsing → s.displayGet s.selectedIndex = none →
      s.handleInput Token.enter = s ∧ s.handleInput Token.space = s) ∧
    ((∀ s : SLState, s.invalidate = s) ∧ (∀ s : OMSState, s.invalidate = s)) := by
  refine ⟨fun s t h ht => empty_noop h ht,
    fun s h => cursor_miss_noop h,
    fun s it hget hsel => move_unselected_noop hget hsel,
    fun s it hget hsel => move_boundary_guard_noop hget hsel,
    fun s hids hsel hsub => ?_,
    fun s id v h => updateValue_unknown h,
    fun s str => text_noop s str,
    fun s str hm hs => sl_text_noop_nosearch hm hs,
    fun s str hm hq => sl_text_noop_spaces hm hq,
    fun s hm hd => sl_nav_empty hm hd,
    fun s hm hd => ?_,
    ⟨fun s => rfl, fun s => rfl⟩⟩
  · constructor
    · intro hlen hc
      exact moveUp_boundary hids hsel hsub hc hlen
    · intro c hc hlast
      exact moveDown_boundary hids hsel hsub hc (by omega) hlast
  · constructor
    · rw [handleInput_browsing_activate hm (Or.inl rfl)]
      exact activateItem_miss hd
    · rw [handleInput_browsing_activate hm (Or.inr rfl)]
      exact activateItem_miss hd

/-- Witness for `c9_total_noop_degradation` at concrete states: an empty
multi-select ignores space, reorder on an unselected row is a no-op,
reorder on the sole selected row is a no-op in both directions (it is
both the top and bottom boundary of the selected group, at the guard
level and at the display level), `updateValue` with an unknown id is a
no-op, and a free character is ignored by a search-disabled settings
list. -/
theorem c9_total_noop_degradation_witness :
    ((OMSState.init [] "x").handleInput Token.space = OMSState.init [] "x") ∧
    ((OMSState.init [⟨"a", "A"⟩] "").handleInput Token.shiftUp =
      OMSState.init [⟨"a", "A"⟩] "") ∧
    ((OMSState.init [⟨"a", "A"⟩] "a").handleInput Token.shiftUp =
      OMSState.init [⟨"a", "A"⟩] "a") ∧
    ((OMSState.init [⟨"a", "A"⟩] "a").handleInput Token.shiftDown =
      OMSState.init [⟨"a", "A"⟩] "a") ∧
    ((OMSState.init [⟨"a", "A"⟩] "a").handleInput Token.shiftUp =
      OMSState.init [⟨"a", "A"⟩] "a") ∧
    ((OMSState.init [⟨"a", "A"⟩] "a").handleInput Token.shiftDown =
      OMSState.init [⟨"a", "A"⟩] "a") ∧
    ((SLState.init [SettingItem.mk "k" "K" none "v" none none] 3 false).updateValue
      "missing" "w" = SLState.init [SettingItem.mk "k" "K" none "v" none none] 3 false) ∧
    ((SLState.init [SettingItem.mk "k" "K" none "v" none none] 3 false).handleInput
      (.text "q") = SLState.init [SettingItem.mk "k" "K" none "v" none none] 3 false) :=
  ⟨c9_total_noop_degradation.1 (OMSState.init [] "x") Token.space (by decide) (by decide),
    (c9_total_noop_degradation.2.2.1 (OMSState.init [⟨"a", "A"⟩] "")
      ⟨⟨"a", "A"⟩, false, 0⟩ (by decide) (by decide)).1,
    (c9_total_noop_degradation.2.2.2.1 (OMSState.init [⟨"a", "A"⟩] "a")
      ⟨⟨"a", "A"⟩, true, 1⟩ (by decide) (by decide)).1 (by decide),
    (c9_total_noop_degradation.2.2.2.1 (OMSState.init [⟨"a", "A"⟩] "a")
      ⟨⟨"a", "A"⟩, true, 1⟩ (by decide) (by decide)).2 (by decide),
    (c9_total_noop_degradation.2.2.2.2.1 (OMSState.init [⟨"a", "A"⟩] "a")
      (by decide) (by decide) (by decide)).1 (by decide) (by decide),
    (c9_total_noop_degradation.2.2.2.2.1 (OMSState.init [⟨"a", "A"⟩] "a")
      (by decide) (by decide) (by decide)).2 0 (by decide) (by decide),
    c9_total_noop_degradation.2.2.2.2.2.1
      (SLState.init [SettingItem.mk "k" "K" none "v" none none] 3 false)
      "missing" "w" (by decide),
    c9_total_noop_degradation.2.2.2.2.2.2.2.1
      (SLState.init [SettingItem.mk "k" "K" none "v" none none] 3 false)
      "q" rfl rfl⟩

/-- C10 (amended): the displayed sequence is empty exactly when the
options list is empty (an all-unknown seed with non-empty options leaves
the display non-empty); with an empty options list every token other
than cancel is ignored, cancel is the only way `done` ever fires — always
with no value — and the seeded `selected` value is never committed. -/
theorem c10_empty_options_amended :
    (∀ s : OMSState, s.options = [] → s.buildDisplayItems = []) ∧
    (∀ (s : OMSState) (t : Token), s.options = [] → t ≠ Token.escape →
      s.handleInput t = s) ∧
    (∀ s : OMSState, s.options = [] →
      s.handleInput Token.escape =
        { s with events := s.events ++ [OMSEvent.done none] }) ∧
    (∀ (cv : String) (ts : List Token),
      ((OMSState.init [] cv).run ts).selected = parseSelected cv ∧
      (∀ e ∈ ((OMSState.init [] cv).run ts).events, e = OMSEvent.done none)) := by
  refine ⟨fun s h => display_nil_of_options_nil h,
    fun s t h ht => empty_noop (by rw [display_nil_of_options_nil h]; rfl) ht,
    fun s h => escape_step s, ?_⟩
  intro cv ts
  obtain ⟨h1, h2⟩ := run_empty_options ts (OMSState.init [] cv) rfl
  refine ⟨h1, fun e he => ?_⟩
  rcases h2 e he with h3 | h3
  · cases h3
  · exact h3

/-- Witness for `c10_empty_options_amended` at concrete states. -/
theorem c10_empty_options_amended_witness :
    ((OMSState.init [] "u").buildDisplayItems = []) ∧
    ((OMSState.init [] "u").handleInput Token.enter = OMSState.init [] "u") ∧
    ((OMSState.init [] "u").run [Token.enter, Token.escape]).selected =
      parseSelected "u" :=
  ⟨c10_empty_options_amended.1 (OMSState.init [] "u") rfl,
    c10_empty_options_amended.2.1 (OMSState.init [] "u") Token.enter rfl (by decide),
    (c10_empty_options_amended.2.2.2 "u" [Token.enter, Token.escape]).1⟩
